import Mathlib

/-
Verification of the Binance-CSV-to-DaLI converter (`bin_preproc.py`).

The development shallowly embeds the converter's core:
`process_transaction_group` (the per-timestamp group classifier),
`process_rebranding_pairs` (the cross-timestamp token-swap matcher), and
the orchestration in `main` that filters, groups and accumulates.

Modelling conventions:
* A raw CSV row keeps its fields as strings, except the "Change" column,
  which the source only ever consumes through `float(...)`: it is modelled
  as `Option ℚ` - `some q` stands for a string that parses numerically to
  `q`, `none` for a non-numeric string (where `float` raises).  Exact
  rational arithmetic stands in for Python float arithmetic.
* Python exceptions (ValueError from `float`, from `datetime.strptime`,
  and from unpacking `remark.split(" to ")`) are modelled by `Except Unit`;
  the converter writes its output files only after all processing has
  finished, so an `Except.error` result models the program aborting with
  no output produced.
* `uuid.uuid4()` ids, the free-text `notes` fields and the constant
  `"__unknown"` spot price carry no classification logic and no claim
  refers to them, so they are omitted from the normalized records.
* `datetime.strptime(ts, "%Y-%m-%d %H:%M:%S")` followed by
  `strftime("%Y-%m-%dT%H:%M:%SZ")` is modelled by `normTime`, which
  accepts the zero-padded form the exchange export uses and validates the
  calendar fields exactly as `datetime` does (month range, day-in-month
  with leap years, time ranges); anything else is a parse error.
-/

/-- A raw Binance CSV row (`UTC_Time`, `Operation`, `Coin`, `Change`,
`Remark`).  `change` is the numeric reading of the "Change" column:
`some q` for a string parsing to `q`, `none` for a non-numeric string. -/
structure RawRecord where
  utcTime : String
  operation : String
  coin : String
  change : Option ℚ
  remark : String
deriving DecidableEq

/-- A normalized acquisition row (the converter's `in_transactions`
dictionaries).  `fiatTicker` is `none` for the Binance-Convert records,
whose dictionary has no `fiat_ticker` key; `Option ℚ` fields are `none`
where the source stores the empty string. -/
structure InTx where
  timestamp : String
  asset : String
  exchange : String
  holder : String
  transactionType : String
  cryptoIn : ℚ
  cryptoFee : ℚ
  fiatInNoFee : Option ℚ
  fiatInWithFee : Option ℚ
  fiatFee : Option ℚ
  fiatTicker : Option String
deriving DecidableEq

/-- A normalized disposal row (the converter's `out_transactions`
dictionaries). -/
structure OutTx where
  timestamp : String
  asset : String
  exchange : String
  holder : String
  transactionType : String
  cryptoOutNoFee : ℚ
  cryptoFee : ℚ
  cryptoOutWithFee : ℚ
  fiatOutNoFee : Option ℚ
  fiatFee : Option ℚ
  fiatTicker : String
deriving DecidableEq

/-- A normalized transfer row (the converter's `intra_transactions`
dictionaries). -/
structure IntraTx where
  timestamp : String
  asset : String
  fromExchange : String
  fromHolder : String
  toExchange : String
  toHolder : String
  cryptoSent : ℚ
  cryptoReceived : ℚ
deriving DecidableEq

/-- Python's `float(rec["Change"])`: succeeds with the parsed value,
raises (models `ValueError`) on a non-numeric string. -/
def floatQ : Option ℚ → Except Unit ℚ
  | some q => Except.ok q
  | none => Except.error ()

/-- The numeric value of a row's "Change" column, defaulting to `0`; in
every context where it is used a hypothesis guarantees the parse
succeeded, so the default is never observed. -/
def changeD (r : RawRecord) : ℚ := (r.change).getD 0

/-- Decimal digit value of a character. -/
def dval (c : Char) : ℕ := c.toNat - 48

/-- Gregorian leap year test (as Python's `datetime`). -/
def isLeap (y : ℕ) : Bool := (y % 4 == 0 && y % 100 != 0) || y % 400 == 0

/-- Number of days of month `m` in year `y` (as Python's `datetime`). -/
def daysInMonth (y m : ℕ) : ℕ :=
  if m == 2 then (if isLeap y then 29 else 28)
  else if m == 4 || m == 6 || m == 9 || m == 11 then 30
  else 31

/-- Model of `datetime.strptime(s, "%Y-%m-%d %H:%M:%S")` followed by
`strftime("%Y-%m-%dT%H:%M:%SZ")`: validates the timestamp string and
rewrites it to ISO-8601 with a `Z` suffix; a malformed timestamp is a
fatal parse error (`ValueError` in the source).  The calendar checks
mirror `datetime`: year at least `MINYEAR = 1` (the four-digit field
already bounds it by `MAXYEAR = 9999`), month 1-12, day within the
month's length (leap years included), hour below 24, minute and second
below 60. -/
def normTime (s : String) : Except Unit String :=
  match s.toList with
  | [y1, y2, y3, y4, c1, m1, m2, c2, d1, d2, c3, h1, h2, c4, n1, n2, c5, s1, s2] =>
    if c1 == '-' && c2 == '-' && c3 == ' ' && c4 == ':' && c5 == ':'
        && [y1, y2, y3, y4, m1, m2, d1, d2, h1, h2, n1, n2, s1, s2].all Char.isDigit then
      let y := ((dval y1 * 10 + dval y2) * 10 + dval y3) * 10 + dval y4
      let m := dval m1 * 10 + dval m2
      let d := dval d1 * 10 + dval d2
      let hh := dval h1 * 10 + dval h2
      let mm := dval n1 * 10 + dval n2
      let ss := dval s1 * 10 + dval s2
      if 1 ≤ y ∧ 1 ≤ m ∧ m ≤ 12 ∧ 1 ≤ d ∧ d ≤ daysInMonth y m ∧ hh ≤ 23 ∧ mm ≤ 59 ∧
          ss ≤ 59 then
        Except.ok (String.mk
          [y1, y2, y3, y4, '-', m1, m2, '-', d1, d2, 'T', h1, h2, ':', n1, n2, ':', s1, s2, 'Z'])
      else Except.error ()
    else Except.error ()
  | _ => Except.error ()

/-- The `Binance Convert` loop: one BUY per positive-amount row, one SELL
(with `abs`) per other row, in source order (lines 112-156). -/
def convertTxs (iso exch holder : String) : List RawRecord →
    Except Unit (List InTx × List OutTx)
  | [] => Except.ok ([], [])
  | r :: rs =>
    match floatQ r.change with
    | Except.error e => Except.error e
    | Except.ok amount =>
      match convertTxs iso exch holder rs with
      | Except.error e => Except.error e
      | Except.ok (ins, outs) =>
        if 0 < amount then
          Except.ok
            ({ timestamp := iso, asset := r.coin, exchange := exch, holder := holder,
               transactionType := "BUY", cryptoIn := amount, cryptoFee := 0,
               fiatInNoFee := none, fiatInWithFee := none, fiatFee := none,
               fiatTicker := none } :: ins, outs)
        else
          Except.ok
            (ins,
             { timestamp := iso, asset := r.coin, exchange := exch, holder := holder,
               transactionType := "SELL", cryptoOutNoFee := |amount|, cryptoFee := 0,
               cryptoOutWithFee := |amount|, fiatOutNoFee := none, fiatFee := none,
               fiatTicker := "" } :: outs)

/-- The `Deposit` loop: one intra transfer per positive-amount row; rows
with `amount <= 0` are skipped (lines 159-181). -/
def depositTxs (iso exch holder : String) : List RawRecord → Except Unit (List IntraTx)
  | [] => Except.ok []
  | r :: rs =>
    match floatQ r.change with
    | Except.error e => Except.error e
    | Except.ok amount =>
      match depositTxs iso exch holder rs with
      | Except.error e => Except.error e
      | Except.ok rest =>
        if amount ≤ 0 then Except.ok rest
        else
          Except.ok
            ({ timestamp := iso, asset := r.coin, fromExchange := "External",
               fromHolder := holder, toExchange := exch, toHolder := holder,
               cryptoSent := amount, cryptoReceived := amount } :: rest)

/-- The `Withdraw` loop: one SELL per row with the amount forced positive
by `abs` (lines 184-206). -/
def withdrawTxs (iso exch holder : String) : List RawRecord → Except Unit (List OutTx)
  | [] => Except.ok []
  | r :: rs =>
    match floatQ r.change with
    | Except.error e => Except.error e
    | Except.ok amount =>
      match withdrawTxs iso exch holder rs with
      | Except.error e => Except.error e
      | Except.ok rest =>
        Except.ok
          ({ timestamp := iso, asset := r.coin, exchange := exch, holder := holder,
             transactionType := "SELL", cryptoOutNoFee := |amount|, cryptoFee := 0,
             cryptoOutWithFee := |amount|, fiatOutNoFee := none, fiatFee := none,
             fiatTicker := "USD" } :: rest)

/-- The comprehension
`[rec for rec in group if rec["Operation"] == "Transaction Fee" and float(rec["Change"]) < 0]`
(lines 215 and 264): it parses the "Change" of every `Transaction Fee`
row, keeping the negative ones. -/
def feeRecs : List RawRecord → Except Unit (List RawRecord)
  | [] => Except.ok []
  | r :: rs =>
    if r.operation == "Transaction Fee" then
      match floatQ r.change with
      | Except.error e => Except.error e
      | Except.ok c =>
        match feeRecs rs with
        | Except.error e => Except.error e
        | Except.ok rest => Except.ok (if c < 0 then r :: rest else rest)
    else feeRecs rs

/-- The fee loops (lines 229-231 and 286-288): sum `abs(float(change))`
over the already-filtered fee rows whose `Coin` equals the target asset
(the target is the Python variable `bought_asset` / `revenue_asset`, an
`Option` because `bought_asset` starts as `None`). -/
def feeAmtFold (asset : Option String) : List RawRecord → Except Unit ℚ
  | [] => Except.ok 0
  | r :: rs =>
    if some r.coin = asset then
      match floatQ r.change with
      | Except.error e => Except.error e
      | Except.ok q =>
        match feeAmtFold asset rs with
        | Except.error e => Except.error e
        | Except.ok rest => Except.ok (|q| + rest)
    else feeAmtFold asset rs

/-- The spend loop (lines 234-236): sum `abs(float(change))` over all
`Transaction Spend` rows. -/
def absSum : List RawRecord → Except Unit ℚ
  | [] => Except.ok 0
  | r :: rs =>
    match floatQ r.change with
    | Except.error e => Except.error e
    | Except.ok q =>
      match absSum rs with
      | Except.error e => Except.error e
      | Except.ok rest => Except.ok (|q| + rest)

/-- The buy-aggregation loop (lines 222-226).  The Python state is
`bought_asset` (`None` initially) and `bought_amount`; the guard
`if not bought_asset` is Python truthiness, so it fires when the asset is
still `None` *or* is the empty string, and a row's change is parsed and
added exactly when its `Coin` equals the updated `bought_asset`. -/
def buyFold : Option String → ℚ → List RawRecord → Except Unit (Option String × ℚ)
  | a, amt, [] => Except.ok (a, amt)
  | a, amt, r :: rs =>
    let a' := if a = none ∨ a = some "" then some r.coin else a
    if some r.coin = a' then
      match floatQ r.change with
      | Except.error e => Except.error e
      | Except.ok q => buyFold a' (amt + q) rs
    else buyFold a' amt rs

/-- The sold-aggregation loop (lines 270-274): same shape as `buyFold`
but accumulating `abs(float(change))`. -/
def soldFold : Option String → ℚ → List RawRecord → Except Unit (Option String × ℚ)
  | a, amt, [] => Except.ok (a, amt)
  | a, amt, r :: rs =>
    let a' := if a = none ∨ a = some "" then some r.coin else a
    if some r.coin = a' then
      match floatQ r.change with
      | Except.error e => Except.error e
      | Except.ok q => soldFold a' (amt + |q|) rs
    else soldFold a' amt rs

/-- The revenue loop (lines 281-283): sum the revenue changes and track
the last-seen revenue `Coin` (initially `"USDT"`). -/
def revenueFold : ℚ → String → List RawRecord → Except Unit (ℚ × String)
  | amt, a, [] => Except.ok (amt, a)
  | amt, _a, r :: rs =>
    match floatQ r.change with
    | Except.error e => Except.error e
    | Except.ok q => revenueFold (amt + q) r.coin rs

/-- The `Binance Convert` block of `process_transaction_group`
(lines 112-156). -/
def convertBranch (iso holder exch : String) (group : List RawRecord) :
    Except Unit (List InTx × List OutTx) :=
  if group.any (fun r => r.operation == "Binance Convert") then
    convertTxs iso exch holder (group.filter (fun r => r.operation == "Binance Convert"))
  else Except.ok ([], [])

/-- The `Deposit` block (lines 159-181). -/
def depositBranch (iso holder exch : String) (group : List RawRecord) :
    Except Unit (List IntraTx) :=
  if group.any (fun r => r.operation == "Deposit") then
    depositTxs iso exch holder (group.filter (fun r => r.operation == "Deposit"))
  else Except.ok []

/-- The `Withdraw` block (lines 184-206). -/
def withdrawBranch (iso holder exch : String) (group : List RawRecord) :
    Except Unit (List OutTx) :=
  if group.any (fun r => r.operation == "Withdraw") then
    withdrawTxs iso exch holder (group.filter (fun r => r.operation == "Withdraw"))
  else Except.ok []

/-- The `Transaction Buy` block (lines 211-257): aggregates the buy rows,
the negative fee rows matching the bought asset and all spend rows into
exactly one BUY record with `crypto_in = bought_amount - fee_amount` and
fiat ticker `"USDT"`. -/
def buyBranch (iso holder exch : String) (group : List RawRecord) :
    Except Unit (List InTx) :=
  if group.any (fun r => r.operation == "Transaction Buy") then
    match feeRecs group with
    | Except.error e => Except.error e
    | Except.ok frecs =>
      match buyFold none 0 (group.filter (fun r => r.operation == "Transaction Buy")) with
      | Except.error e => Except.error e
      | Except.ok (boughtAsset, boughtAmount) =>
        match feeAmtFold boughtAsset frecs with
        | Except.error e => Except.error e
        | Except.ok feeAmount =>
          match absSum (group.filter (fun r => r.operation == "Transaction Spend")) with
          | Except.error e => Except.error e
          | Except.ok spentAmount =>
            Except.ok
              [{ timestamp := iso, asset := boughtAsset.getD "", exchange := exch,
                 holder := holder, transactionType := "BUY",
                 cryptoIn := boughtAmount - feeAmount, cryptoFee := feeAmount,
                 fiatInNoFee := some spentAmount, fiatInWithFee := some spentAmount,
                 fiatFee := none, fiatTicker := some "USDT" }]
  else Except.ok []

/-- The `Transaction Sold` block (lines 260-309): aggregates the sold
rows, the revenue rows and the negative fee rows matching the revenue
asset into exactly one SELL record. -/
def soldBranch (iso holder exch : String) (group : List RawRecord) :
    Except Unit (List OutTx) :=
  if group.any (fun r => r.operation == "Transaction Sold") then
    match feeRecs group with
    | Except.error e => Except.error e
    | Except.ok frecs =>
      match soldFold none 0 (group.filter (fun r => r.operation == "Transaction Sold")) with
      | Except.error e => Except.error e
      | Except.ok (soldAsset, soldAmount) =>
        match revenueFold 0 "USDT"
            (group.filter (fun r => r.operation == "Transaction Revenue")) with
        | Except.error e => Except.error e
        | Except.ok (revenueAmount, revenueAsset) =>
          match feeAmtFold (some revenueAsset) frecs with
          | Except.error e => Except.error e
          | Except.ok feeAmount =>
            Except.ok
              [{ timestamp := iso, asset := soldAsset.getD "", exchange := exch,
                 holder := holder, transactionType := "SELL",
                 cryptoOutNoFee := soldAmount, cryptoFee := 0,
                 cryptoOutWithFee := soldAmount,
                 fiatOutNoFee := some (revenueAmount - feeAmount),
                 fiatFee := some feeAmount, fiatTicker := revenueAsset }]
  else Except.ok []

/-- The classifier `process_transaction_group(group, holder, exchange)`
(lines 96-313):
normalizes the group's timestamp, then runs the five pattern blocks in
source order and concatenates their outputs. -/
def processGroupE (group : List RawRecord) (holder exch : String) :
    Except Unit (List InTx × List OutTx × List IntraTx) :=
  match group with
  | [] => Except.error ()
  | g0 :: _ =>
    match normTime g0.utcTime with
    | Except.error e => Except.error e
    | Except.ok iso =>
      match convertBranch iso holder exch group with
      | Except.error e => Except.error e
      | Except.ok (ins1, outs1) =>
        match depositBranch iso holder exch group with
        | Except.error e => Except.error e
        | Except.ok intras1 =>
          match withdrawBranch iso holder exch group with
          | Except.error e => Except.error e
          | Except.ok outs2 =>
            match buyBranch iso holder exch group with
            | Except.error e => Except.error e
            | Except.ok ins2 =>
              match soldBranch iso holder exch group with
              | Except.error e => Except.error e
              | Except.ok outs3 =>
                Except.ok (ins1 ++ ins2, outs1 ++ outs2 ++ outs3, intras1)

/-- The operation string of token-swap rows. -/
def swapOp : String := "Token Swap - Redenomination/Rebranding"

/-- Split a character list at every (leftmost, non-overlapping)
occurrence of the four-character separator `" to "` - the semantics of
Python's `remark.split(" to ")` for this fixed separator. -/
def splitSep : List Char → List (List Char)
  | ' ' :: 't' :: 'o' :: ' ' :: rest => [] :: splitSep rest
  | c :: rest =>
    match splitSep rest with
    | [] => [[c]]
    | p :: ps => (c :: p) :: ps
  | [] => [[]]

/-- Python's `remark.split(" to ")`. -/
def splitOnTo (s : String) : List String := (splitSep s.toList).map (fun l => String.mk l)

/-- Python's `" to " in remark` (line 374): the remark contains the
separator exactly when splitting on it yields at least two parts. -/
def hasSep (remark : String) : Bool := 2 ≤ (splitOnTo remark).length

/-- The old-asset name derived from a distribution remark: the part
before the separator when `remark.split(" to ")` yields exactly two
parts, undefined (unpacking raises) otherwise. -/
def fromAssetOf (remark : String) : Option String :=
  match splitOnTo remark with
  | [a, _] => some a
  | _ => none

/-- The inner loop of `process_rebranding_pairs` (lines 378-401): scan
all swap rows and emit one transfer for *every* row whose `Coin` equals
the derived old asset (the loop has no `break`). -/
def rebrandRow (holder exch fromAsset toAsset : String) :
    List RawRecord → Except Unit (List IntraTx)
  | [] => Except.ok []
  | s :: ss =>
    if s.coin == fromAsset then
      match floatQ s.change with
      | Except.error e => Except.error e
      | Except.ok amount =>
        match normTime s.utcTime with
        | Except.error e => Except.error e
        | Except.ok iso =>
          match rebrandRow holder exch fromAsset toAsset ss with
          | Except.error e => Except.error e
          | Except.ok rest =>
            Except.ok
              ({ timestamp := iso, asset := fromAsset, fromExchange := exch,
                 fromHolder := holder, toExchange := exch, toHolder := holder,
                 cryptoSent := |amount|, cryptoReceived := |amount| } :: rest)
    else rebrandRow holder exch fromAsset toAsset ss

/-- The matcher `process_rebranding_pairs(swap_records,
distribution_records, holder, exchange)` (lines 367-403).  For each distribution row whose remark
contains `" to "`, Python unpacks `remark.split(" to ")` into exactly two
names - a remark with more than one separator makes the unpacking raise
`ValueError` (`Except.error` here). -/
def processRebrandingPairs (swaps dists : List RawRecord) (holder exch : String) :
    Except Unit (List IntraTx) :=
  match dists with
  | [] => Except.ok []
  | d :: ds =>
    if hasSep d.remark then
      match splitOnTo d.remark with
      | [fromAsset, toAsset] =>
        match rebrandRow holder exch fromAsset toAsset swaps with
        | Except.error e => Except.error e
        | Except.ok txs =>
          match processRebrandingPairs swaps ds holder exch with
          | Except.error e => Except.error e
          | Except.ok rest => Except.ok (txs ++ rest)
      | _ => Except.error ()
    else processRebrandingPairs swaps ds holder exch

/-- Is a row eligible for the rebranding pre-pass (and hence removed
before grouping): a token-swap row, or a distribution row whose remark
contains the separator (lines 419-434)? -/
def eligibleRebrand (r : RawRecord) : Bool :=
  r.operation == swapOp || (r.operation == "Distribution" && hasSep r.remark)

/-- The record set that reaches the timestamp grouper: `main` filters out
the rebranding-eligible rows whenever any swap or eligible-distribution
row exists (lines 426-435). -/
def groupableRecords (records : List RawRecord) : List RawRecord :=
  if (records.filter (fun r => r.operation == swapOp)) ≠ [] ∨
      (records.filter (fun r => r.operation == "Distribution" && hasSep r.remark)) ≠ [] then
    records.filter (fun r => !(eligibleRebrand r))
  else records

/-- Insertion-order-of-first-appearance timestamp keys: the iteration
order of Python's `defaultdict` in `group_transactions_by_time`
(lines 85-93). -/
def groupKeys (records : List RawRecord) : List String :=
  records.foldl (fun ks r => if r.utcTime ∈ ks then ks else ks ++ [r.utcTime]) []

/-- The timestamp groups, in first-appearance order, each holding its
rows in source order. -/
def groupsOf (records : List RawRecord) : List (List RawRecord) :=
  (groupKeys records).map (fun t => records.filter (fun r => r.utcTime == t))

/-- The accumulation loop of `main` (lines 446-450): classify every group
and extend the three running ledgers. -/
def accumGroups (holder exch : String) :
    List (List RawRecord) → List InTx × List OutTx × List IntraTx →
    Except Unit (List InTx × List OutTx × List IntraTx)
  | [], acc => Except.ok acc
  | g :: gs, acc =>
    match processGroupE g holder exch with
    | Except.error e => Except.error e
    | Except.ok (ins, outs, intras) =>
      accumGroups holder exch gs (acc.1 ++ ins, acc.2.1 ++ outs, acc.2.2 ++ intras)

/-- The whole conversion core of `main` (lines 418-453): run the
rebranding pre-pass, drop the eligible rows, group the remainder by
timestamp and classify every group, seeding the intra ledger with the
rebranding transfers.  The output files are written only on success. -/
def convertAll (records : List RawRecord) (holder exch : String) :
    Except Unit (List InTx × List OutTx × List IntraTx) :=
  match processRebrandingPairs (records.filter (fun r => r.operation == swapOp))
      (records.filter (fun r => r.operation == "Distribution" && hasSep r.remark))
      holder exch with
  | Except.error e => Except.error e
  | Except.ok rebrandTxs =>
    accumGroups holder exch (groupsOf (groupableRecords records)) ([], [], rebrandTxs)

/-- The "last-seen revenue asset" of a group: the `Coin` of the last
`Transaction Revenue` row, defaulting to `"USDT"` when the group has no
revenue row (the initial value of the Python variable `revenue_asset`,
line 278). -/
def lastRevenueAsset (group : List RawRecord) : String :=
  ((group.filter (fun r => r.operation == "Transaction Revenue")).map
    (fun r => r.coin)).getLastD "USDT"

/-- A concrete trade group (one Buy row, one Spend row) used as a
witness input. -/
def demoBuyGroup : List RawRecord :=
  [⟨"2021-01-01 00:00:00", "Transaction Buy", "ETH", some 1, ""⟩,
   ⟨"2021-01-01 00:00:00", "Transaction Spend", "USDT", some (-3000), ""⟩]

/-- A concrete trade group (one Sold row, one Revenue row, one negative
Fee row) used as a witness input. -/
def demoSoldGroup : List RawRecord :=
  [⟨"2021-01-01 00:00:00", "Transaction Sold", "ETH", some (-1), ""⟩,
   ⟨"2021-01-01 00:00:00", "Transaction Revenue", "USDT", some 3000, ""⟩,
   ⟨"2021-01-01 00:00:00", "Transaction Fee", "USDT", some (-3), ""⟩]

/-! ### Helper lemmas about the embedded loops -/

theorem filter_filter_comm {α : Type} {p q : α → Bool} (l : List α) :
    (l.filter p).filter q = l.filter (fun a => p a && q a) := by
  induction l with
  | nil => rfl
  | cons x xs ih =>
    by_cases hp : p x <;> by_cases hq : q x <;>
      simp [List.filter_cons, hp, hq, ih]

theorem some_beq_some (x y : String) :
    ((some x : Option String) == some y) = (x == y) := by
  by_cases h : x = y <;> simp [h]

theorem floatQ_ok {o : Option ℚ} {q : ℚ} (h : floatQ o = Except.ok q) : o = some q := by
  cases o with
  | none => exact absurd h (by simp [floatQ])
  | some x =>
    simp only [floatQ] at h
    injection h with h
    rw [h]

theorem floatQ_ok_isSome {o : Option ℚ} {q : ℚ} (h : floatQ o = Except.ok q) :
    o.isSome = true := by
  rw [floatQ_ok h]
  rfl

theorem changeD_eq {r : RawRecord} {q : ℚ} (h : r.change = some q) : changeD r = q := by
  simp [changeD, h]

theorem exceptUnit_eq_error {α : Type} {x : Except Unit α}
    (h : ∀ v, x ≠ Except.ok v) : x = Except.error () := by
  cases x with
  | error e => rfl
  | ok v => exact absurd rfl (h v)

theorem convertTxs_ok {iso exch holder : String} {rs : List RawRecord}
    {ins : List InTx} {outs : List OutTx}
    (h : convertTxs iso exch holder rs = Except.ok (ins, outs)) :
    (∀ a ∈ ins, a.fiatTicker = none ∧ a.cryptoFee = 0 ∧ 0 < a.cryptoIn) ∧
    (∀ o ∈ outs, o.cryptoFee = 0 ∧ 0 ≤ o.cryptoOutNoFee ∧
      o.cryptoOutWithFee = o.cryptoOutNoFee ∧ o.fiatOutNoFee = none) ∧
    (∀ r ∈ rs, (r.change).isSome = true) := by
  induction rs generalizing ins outs with
  | nil =>
    simp only [convertTxs, Except.ok.injEq, Prod.mk.injEq] at h
    obtain ⟨h1, h2⟩ := h
    subst h1; subst h2
    simp
  | cons r rs ih =>
    simp only [convertTxs] at h
    cases hq : floatQ r.change with
    | error e => rw [hq] at h; exact absurd h (by simp)
    | ok amount =>
      rw [hq] at h
      cases hrec : convertTxs iso exch holder rs with
      | error e => rw [hrec] at h; exact absurd h (by simp)
      | ok p =>
        obtain ⟨ins', outs'⟩ := p
        rw [hrec] at h
        obtain ⟨hins, houts, hsome⟩ := ih hrec
        by_cases hpos : 0 < amount
        · simp only [hpos, if_pos] at h
          obtain ⟨h1, h2⟩ := by simpa using h
          subst h1; subst h2
          refine ⟨?_, houts, ?_⟩
          · intro a ha
            rcases List.mem_cons.mp ha with ha | ha
            · subst ha; exact ⟨rfl, rfl, hpos⟩
            · exact hins a ha
          · intro x hx
            rcases List.mem_cons.mp hx with hx | hx
            · subst hx; exact floatQ_ok_isSome hq
            · exact hsome x hx
        · simp only [hpos, if_neg, not_false_iff] at h
          obtain ⟨h1, h2⟩ := by simpa using h
          subst h1; subst h2
          refine ⟨hins, ?_, ?_⟩
          · intro o ho
            rcases List.mem_cons.mp ho with ho | ho
            · subst ho; exact ⟨rfl, abs_nonneg _, rfl, rfl⟩
            · exact houts o ho
          · intro x hx
            rcases List.mem_cons.mp hx with hx | hx
            · subst hx; exact floatQ_ok_isSome hq
            · exact hsome x hx

theorem depositTxs_ok {iso exch holder : String} {rs : List RawRecord} {l : List IntraTx}
    (h : depositTxs iso exch holder rs = Except.ok l) :
    (∀ t ∈ l, t.cryptoSent = t.cryptoReceived ∧ t.fromExchange = "External") ∧
    (∀ r ∈ rs, (r.change).isSome = true) := by
  induction rs generalizing l with
  | nil =>
    simp only [depositTxs, Except.ok.injEq] at h
    subst h
    simp
  | cons r rs ih =>
    simp only [depositTxs] at h
    cases hq : floatQ r.change with
    | error e => rw [hq] at h; exact absurd h (by simp)
    | ok amount =>
      rw [hq] at h
      cases hrec : depositTxs iso exch holder rs with
      | error e => rw [hrec] at h; exact absurd h (by simp)
      | ok rest =>
        rw [hrec] at h
        obtain ⟨hl, hsome⟩ := ih hrec
        have hstep : ∀ x ∈ rs.cons r, (x.change).isSome = true := by
          intro x hx
          rcases List.mem_cons.mp hx with hx | hx
          · subst hx; exact floatQ_ok_isSome hq
          · exact hsome x hx
        by_cases hneg : amount ≤ 0
        · simp only [hneg, if_pos] at h
          obtain h1 := by simpa using h
          subst h1
          exact ⟨hl, hstep⟩
        · simp only [hneg, if_neg, not_false_iff] at h
          obtain h1 := by simpa using h
          subst h1
          refine ⟨?_, hstep⟩
          intro t ht
          rcases List.mem_cons.mp ht with ht | ht
          · subst ht; exact ⟨rfl, rfl⟩
          · exact hl t ht

theorem withdrawTxs_ok {iso exch holder : String} {rs : List RawRecord} {l : List OutTx}
    (h : withdrawTxs iso exch holder rs = Except.ok l) :
    (∀ o ∈ l, o.cryptoFee = 0 ∧ 0 ≤ o.cryptoOutNoFee ∧
      o.cryptoOutWithFee = o.cryptoOutNoFee ∧ o.fiatOutNoFee = none) ∧
    (∀ r ∈ rs, (r.change).isSome = true) := by
  induction rs generalizing l with
  | nil =>
    simp only [withdrawTxs, Except.ok.injEq] at h
    subst h
    simp
  | cons r rs ih =>
    simp only [withdrawTxs] at h
    cases hq : floatQ r.change with
    | error e => rw [hq] at h; exact absurd h (by simp)
    | ok amount =>
      rw [hq] at h
      cases hrec : withdrawTxs iso exch holder rs with
      | error e => rw [hrec] at h; exact absurd h (by simp)
      | ok rest =>
        rw [hrec] at h
        obtain h1 := by simpa using h
        subst h1
        obtain ⟨hl, hsome⟩ := ih hrec
        refine ⟨?_, ?_⟩
        · intro o ho
          rcases List.mem_cons.mp ho with ho | ho
          · subst ho; exact ⟨rfl, abs_nonneg _, rfl, rfl⟩
          · exact hl o ho
        · intro x hx
          rcases List.mem_cons.mp hx with hx | hx
          · subst hx; exact floatQ_ok_isSome hq
          · exact hsome x hx

theorem feeRecs_ok {rs : List RawRecord} {l : List RawRecord}
    (h : feeRecs rs = Except.ok l) :
    l = rs.filter (fun r => r.operation == "Transaction Fee" && decide (changeD r < 0)) ∧
    (∀ r ∈ rs, r.operation = "Transaction Fee" → (r.change).isSome = true) := by
  induction rs generalizing l with
  | nil =>
    simp only [feeRecs, Except.ok.injEq] at h
    subst h
    simp
  | cons r rs ih =>
    simp only [feeRecs] at h
    by_cases hop : r.operation == "Transaction Fee"
    · rw [if_pos hop] at h
      cases hq : floatQ r.change with
      | error e => rw [hq] at h; exact absurd h (by simp)
      | ok c =>
        rw [hq] at h
        cases hrec : feeRecs rs with
        | error e => rw [hrec] at h; exact absurd h (by simp)
        | ok rest =>
          rw [hrec] at h
          obtain h1 := by simpa using h
          subst h1
          obtain ⟨hfil, hsome⟩ := ih hrec
          have hc : changeD r = c := changeD_eq (floatQ_ok hq)
          constructor
          · rw [List.filter_cons]
            by_cases hneg : c < 0
            · simp [hop, hc, hneg, hfil]
            · simp [hop, hc, hneg, hfil]
          · intro x hx hxop
            rcases List.mem_cons.mp hx with hx | hx
            · subst hx; exact floatQ_ok_isSome hq
            · exact hsome x hx hxop
    · rw [if_neg hop] at h
      obtain ⟨hfil, hsome⟩ := ih h
      constructor
      · rw [List.filter_cons]
        simp only [hop]
        simpa using hfil
      · intro x hx hxop
        rcases List.mem_cons.mp hx with hx | hx
        · subst hx; exact absurd (by simp [hxop]) hop
        · exact hsome x hx hxop

theorem feeAmtFold_ok {asset : Option String} {rs : List RawRecord} {v : ℚ}
    (h : feeAmtFold asset rs = Except.ok v) :
    v = ((rs.filter (fun r => some r.coin == asset)).map (fun r => |changeD r|)).sum := by
  induction rs generalizing v with
  | nil =>
    simp only [feeAmtFold, Except.ok.injEq] at h
    subst h
    simp
  | cons r rs ih =>
    simp only [feeAmtFold] at h
    by_cases hcoin : some r.coin = asset
    · rw [if_pos hcoin] at h
      cases hq : floatQ r.change with
      | error e => rw [hq] at h; exact absurd h (by simp)
      | ok q =>
        rw [hq] at h
        cases hrec : feeAmtFold asset rs with
        | error e => rw [hrec] at h; exact absurd h (by simp)
        | ok rest =>
          rw [hrec] at h
          obtain h1 := by simpa using h
          subst h1
          rw [List.filter_cons]
          have hq' : changeD r = q := changeD_eq (floatQ_ok hq)
          simp [hcoin, hq', ih hrec]
    · rw [if_neg hcoin] at h
      rw [List.filter_cons]
      simp [hcoin, ih h]

theorem feeAmtFold_nonneg {asset : Option String} {rs : List RawRecord} {v : ℚ}
    (h : feeAmtFold asset rs = Except.ok v) : 0 ≤ v := by
  rw [feeAmtFold_ok h]
  apply List.sum_nonneg
  intro x hx
  obtain ⟨r, _, hr⟩ := List.mem_map.mp hx
  rw [← hr]
  exact abs_nonneg _

theorem absSum_ok {rs : List RawRecord} {v : ℚ}
    (h : absSum rs = Except.ok v) :
    v = (rs.map (fun r => |changeD r|)).sum ∧
    (∀ r ∈ rs, (r.change).isSome = true) := by
  induction rs generalizing v with
  | nil =>
    simp only [absSum, Except.ok.injEq] at h
    subst h
    simp
  | cons r rs ih =>
    simp only [absSum] at h
    cases hq : floatQ r.change with
    | error e => rw [hq] at h; exact absurd h (by simp)
    | ok q =>
      rw [hq] at h
      cases hrec : absSum rs with
      | error e => rw [hrec] at h; exact absurd h (by simp)
      | ok rest =>
        rw [hrec] at h
        obtain h1 := by simpa using h
        subst h1
        obtain ⟨hsum, hsome⟩ := ih hrec
        have hq' : changeD r = q := changeD_eq (floatQ_ok hq)
        refine ⟨by simp [hq', hsum], ?_⟩
        intro x hx
        rcases List.mem_cons.mp hx with hx | hx
        · subst hx; exact floatQ_ok_isSome hq
        · exact hsome x hx

theorem buyFold_stable {c : String} (hc : c ≠ "") :
    ∀ {rs : List RawRecord} {amt : ℚ} {v : Option String × ℚ},
    buyFold (some c) amt rs = Except.ok v →
    v.1 = some c ∧
    v.2 = amt + ((rs.filter (fun r => r.coin == c)).map changeD).sum ∧
    (∀ r ∈ rs, r.coin = c → (r.change).isSome = true) := by
  intro rs
  induction rs with
  | nil =>
    intro amt v h
    obtain h1 := by simpa [buyFold] using h
    subst h1
    simp
  | cons r rs ih =>
    intro amt v h
    simp only [buyFold] at h
    have ha' : (if some c = none ∨ some c = some "" then some r.coin else some c) = some c := by
      simp [hc]
    rw [ha'] at h
    by_cases hrc : r.coin = c
    · rw [if_pos (by rw [hrc])] at h
      cases hq : floatQ r.change with
      | error e => rw [hq] at h; exact absurd h (by simp)
      | ok q =>
        rw [hq] at h
        obtain ⟨h1, h2, h3⟩ := ih h
        have hq' : changeD r = q := changeD_eq (floatQ_ok hq)
        refine ⟨h1, ?_, ?_⟩
        · rw [h2, List.filter_cons, if_pos (by simp [hrc])]
          simp only [List.map_cons, List.sum_cons, hq']
          ring
        · intro x hx _
          rcases List.mem_cons.mp hx with hx | hx
          · subst hx; exact floatQ_ok_isSome hq
          · exact h3 x hx (by assumption)
    · rw [if_neg (by simpa using hrc)] at h
      obtain ⟨h1, h2, h3⟩ := ih h
      refine ⟨h1, ?_, ?_⟩
      · rw [h2, List.filter_cons, if_neg (by simpa using hrc)]
      · intro x hx hxc
        rcases List.mem_cons.mp hx with hx | hx
        · subst hx; exact absurd hxc hrc
        · exact h3 x hx hxc

theorem buyFold_none_cons (b : RawRecord) (bs : List RawRecord) (amt : ℚ) :
    buyFold none amt (b :: bs) =
      match floatQ b.change with
      | Except.error e => Except.error e
      | Except.ok q => buyFold (some b.coin) (amt + q) bs := by
  cases hq : floatQ b.change <;> simp [buyFold, hq]

theorem buyFold_first {b : RawRecord} {bs : List RawRecord} {v : Option String × ℚ}
    (hc : b.coin ≠ "")
    (h : buyFold none 0 (b :: bs) = Except.ok v) :
    v.1 = some b.coin ∧
    v.2 = (((b :: bs).filter (fun r => r.coin == b.coin)).map changeD).sum ∧
    (∀ r ∈ b :: bs, r.coin = b.coin → (r.change).isSome = true) := by
  rw [buyFold_none_cons] at h
  cases hq : floatQ b.change with
  | error e => rw [hq] at h; exact absurd h (by simp)
  | ok q =>
    rw [hq] at h
    obtain ⟨h1, h2, h3⟩ := buyFold_stable hc h
    have hq' : changeD b = q := changeD_eq (floatQ_ok hq)
    refine ⟨h1, ?_, ?_⟩
    · rw [h2, List.filter_cons, if_pos (by simp)]
      simp only [List.map_cons, List.sum_cons, hq']
      ring
    · intro x hx hxc
      rcases List.mem_cons.mp hx with hx | hx
      · subst hx; exact floatQ_ok_isSome hq
      · exact h3 x hx hxc

theorem soldFold_stable {c : String} (hc : c ≠ "") :
    ∀ {rs : List RawRecord} {amt : ℚ} {v : Option String × ℚ},
    soldFold (some c) amt rs = Except.ok v →
    v.1 = some c ∧
    v.2 = amt + ((rs.filter (fun r => r.coin == c)).map (fun r => |changeD r|)).sum ∧
    (∀ r ∈ rs, r.coin = c → (r.change).isSome = true) := by
  intro rs
  induction rs with
  | nil =>
    intro amt v h
    obtain h1 := by simpa [soldFold] using h
    subst h1
    simp
  | cons r rs ih =>
    intro amt v h
    simp only [soldFold] at h
    have ha' : (if some c = none ∨ some c = some "" then some r.coin else some c) = some c := by
      simp [hc]
    rw [ha'] at h
    by_cases hrc : r.coin = c
    · rw [if_pos (by rw [hrc])] at h
      cases hq : floatQ r.change with
      | error e => rw [hq] at h; exact absurd h (by simp)
      | ok q =>
        rw [hq] at h
        obtain ⟨h1, h2, h3⟩ := ih h
        have hq' : changeD r = q := changeD_eq (floatQ_ok hq)
        refine ⟨h1, ?_, ?_⟩
        · rw [h2, List.filter_cons, if_pos (by simp [hrc])]
          simp only [List.map_cons, List.sum_cons, hq']
          ring
        · intro x hx _
          rcases List.mem_cons.mp hx with hx | hx
          · subst hx; exact floatQ_ok_isSome hq
          · exact h3 x hx (by assumption)
    · rw [if_neg (by simpa using hrc)] at h
      obtain ⟨h1, h2, h3⟩ := ih h
      refine ⟨h1, ?_, ?_⟩
      · rw [h2, List.filter_cons, if_neg (by simpa using hrc)]
      · intro x hx hxc
        rcases List.mem_cons.mp hx with hx | hx
        · subst hx; exact absurd hxc hrc
        · exact h3 x hx hxc

theorem soldFold_none_cons (b : RawRecord) (bs : List RawRecord) (amt : ℚ) :
    soldFold none amt (b :: bs) =
      match floatQ b.change with
      | Except.error e => Except.error e
      | Except.ok q => soldFold (some b.coin) (amt + |q|) bs := by
  cases hq : floatQ b.change <;> simp [soldFold, hq]

theorem soldFold_first {b : RawRecord} {bs : List RawRecord} {v : Option String × ℚ}
    (hc : b.coin ≠ "")
    (h : soldFold none 0 (b :: bs) = Except.ok v) :
    v.1 = some b.coin ∧
    v.2 = (((b :: bs).filter (fun r => r.coin == b.coin)).map (fun r => |changeD r|)).sum ∧
    (∀ r ∈ b :: bs, r.coin = b.coin → (r.change).isSome = true) := by
  rw [soldFold_none_cons] at h
  cases hq : floatQ b.change with
  | error e => rw [hq] at h; exact absurd h (by simp)
  | ok q =>
    rw [hq] at h
    obtain ⟨h1, h2, h3⟩ := soldFold_stable hc h
    have hq' : changeD b = q := changeD_eq (floatQ_ok hq)
    refine ⟨h1, ?_, ?_⟩
    · rw [h2, List.filter_cons, if_pos (by simp)]
      simp only [List.map_cons, List.sum_cons, hq']
      ring
    · intro x hx hxc
      rcases List.mem_cons.mp hx with hx | hx
      · subst hx; exact floatQ_ok_isSome hq
      · exact h3 x hx hxc

theorem soldFold_nonneg :
    ∀ {rs : List RawRecord} {a : Option String} {amt : ℚ} {v : Option String × ℚ},
    soldFold a amt rs = Except.ok v → 0 ≤ amt → 0 ≤ v.2 := by
  intro rs
  induction rs with
  | nil =>
    intro a amt v h hamt
    obtain h1 := by simpa [soldFold] using h
    subst h1
    exact hamt
  | cons r rs ih =>
    intro a amt v h hamt
    simp only [soldFold] at h
    by_cases hcond : some r.coin = (if a = none ∨ a = some "" then some r.coin else a)
    · rw [if_pos hcond] at h
      cases hq : floatQ r.change with
      | error e => rw [hq] at h; exact absurd h (by simp)
      | ok q =>
        rw [hq] at h
        exact ih h (by positivity)
    · rw [if_neg hcond] at h
      exact ih h hamt

theorem revenueFold_ok :
    ∀ {rs : List RawRecord} {amt : ℚ} {a : String} {v : ℚ × String},
    revenueFold amt a rs = Except.ok v →
    v.1 = amt + (rs.map changeD).sum ∧
    v.2 = (rs.map (fun r => r.coin)).getLastD a ∧
    (∀ r ∈ rs, (r.change).isSome = true) := by
  intro rs
  induction rs with
  | nil =>
    intro amt a v h
    obtain h1 := by simpa [revenueFold] using h
    subst h1
    simp
  | cons r rs ih =>
    intro amt a v h
    simp only [revenueFold] at h
    cases hq : floatQ r.change with
    | error e => rw [hq] at h; exact absurd h (by simp)
    | ok q =>
      rw [hq] at h
      obtain ⟨h1, h2, h3⟩ := ih h
      have hq' : changeD r = q := changeD_eq (floatQ_ok hq)
      refine ⟨?_, ?_, ?_⟩
      · rw [h1]
        simp only [List.map_cons, List.sum_cons, hq']
        ring
      · rw [h2, List.map_cons, List.getLastD_cons]
      · intro x hx
        rcases List.mem_cons.mp hx with hx | hx
        · subst hx; exact floatQ_ok_isSome hq
        · exact h3 x hx

theorem processGroupE_ok {group : List RawRecord} {holder exch : String}
    {res : List InTx × List OutTx × List IntraTx}
    (h : processGroupE group holder exch = Except.ok res) :
    ∃ g0 gs iso p1 intras1 outs2 ins2 outs3,
      group = g0 :: gs ∧
      normTime g0.utcTime = Except.ok iso ∧
      convertBranch iso holder exch group = Except.ok p1 ∧
      depositBranch iso holder exch group = Except.ok intras1 ∧
      withdrawBranch iso holder exch group = Except.ok outs2 ∧
      buyBranch iso holder exch group = Except.ok ins2 ∧
      soldBranch iso holder exch group = Except.ok outs3 ∧
      res = (p1.1 ++ ins2, p1.2 ++ outs2 ++ outs3, intras1) := by
  cases group with
  | nil => exact absurd h (by simp [processGroupE])
  | cons g0 gs =>
    simp only [processGroupE] at h
    split at h
    · exact absurd h (by simp)
    · rename_i iso h1
      split at h
      · exact absurd h (by simp)
      · rename_i ins1 outs1 h2
        split at h
        · exact absurd h (by simp)
        · rename_i intras1 h3
          split at h
          · exact absurd h (by simp)
          · rename_i outs2 h4
            split at h
            · exact absurd h (by simp)
            · rename_i ins2 h5
              split at h
              · exact absurd h (by simp)
              · rename_i outs3 h6
                obtain hres := by simpa using h
                refine ⟨g0, gs, iso, (ins1, outs1), intras1, outs2, ins2, outs3,
                  rfl, h1, h2, h3, h4, h5, h6, ?_⟩
                rw [← hres]
                simp [List.append_assoc]

theorem convertBranch_ok {iso holder exch : String} {group : List RawRecord}
    {p : List InTx × List OutTx}
    (h : convertBranch iso holder exch group = Except.ok p) :
    (∀ a ∈ p.1, a.fiatTicker = none ∧ a.cryptoFee = 0 ∧ 0 < a.cryptoIn) ∧
    (∀ o ∈ p.2, o.cryptoFee = 0 ∧ 0 ≤ o.cryptoOutNoFee ∧
      o.cryptoOutWithFee = o.cryptoOutNoFee ∧ o.fiatOutNoFee = none) ∧
    (∀ r ∈ group, r.operation = "Binance Convert" → (r.change).isSome = true) := by
  by_cases hc : group.any (fun r => r.operation == "Binance Convert")
  · rw [convertBranch, if_pos hc] at h
    obtain ⟨p1, p2⟩ := p
    obtain ⟨hins, houts, hsome⟩ := convertTxs_ok h
    refine ⟨hins, houts, ?_⟩
    intro r hr hop
    exact hsome r (List.mem_filter.mpr ⟨hr, by simp [hop]⟩)
  · rw [convertBranch, if_neg hc] at h
    obtain h1 := by simpa using h
    subst h1
    refine ⟨by simp, by simp, ?_⟩
    intro r hr hop
    exact absurd (List.any_eq_true.mpr ⟨r, hr, by simp [hop]⟩) hc

theorem depositBranch_ok {iso holder exch : String} {group : List RawRecord}
    {l : List IntraTx}
    (h : depositBranch iso holder exch group = Except.ok l) :
    (∀ t ∈ l, t.cryptoSent = t.cryptoReceived) ∧
    (∀ r ∈ group, r.operation = "Deposit" → (r.change).isSome = true) := by
  by_cases hc : group.any (fun r => r.operation == "Deposit")
  · rw [depositBranch, if_pos hc] at h
    obtain ⟨hl, hsome⟩ := depositTxs_ok h
    refine ⟨fun t ht => (hl t ht).1, ?_⟩
    intro r hr hop
    exact hsome r (List.mem_filter.mpr ⟨hr, by simp [hop]⟩)
  · rw [depositBranch, if_neg hc] at h
    obtain h1 := by simpa using h
    subst h1
    refine ⟨by simp, ?_⟩
    intro r hr hop
    exact absurd (List.any_eq_true.mpr ⟨r, hr, by simp [hop]⟩) hc

theorem withdrawBranch_ok {iso holder exch : String} {group : List RawRecord}
    {l : List OutTx}
    (h : withdrawBranch iso holder exch group = Except.ok l) :
    (∀ o ∈ l, o.cryptoFee = 0 ∧ 0 ≤ o.cryptoOutNoFee ∧
      o.cryptoOutWithFee = o.cryptoOutNoFee ∧ o.fiatOutNoFee = none) ∧
    (∀ r ∈ group, r.operation = "Withdraw" → (r.change).isSome = true) := by
  by_cases hc : group.any (fun r => r.operation == "Withdraw")
  · rw [withdrawBranch, if_pos hc] at h
    obtain ⟨hl, hsome⟩ := withdrawTxs_ok h
    refine ⟨hl, ?_⟩
    intro r hr hop
    exact hsome r (List.mem_filter.mpr ⟨hr, by simp [hop]⟩)
  · rw [withdrawBranch, if_neg hc] at h
    obtain h1 := by simpa using h
    subst h1
    refine ⟨by simp, ?_⟩
    intro r hr hop
    exact absurd (List.any_eq_true.mpr ⟨r, hr, by simp [hop]⟩) hc

theorem buyBranch_props {iso holder exch : String} {group : List RawRecord}
    {l : List InTx}
    (h : buyBranch iso holder exch group = Except.ok l) :
    ∀ a ∈ l, 0 ≤ a.cryptoFee ∧ a.fiatTicker = some "USDT" := by
  by_cases hc : group.any (fun r => r.operation == "Transaction Buy")
  · rw [buyBranch, if_pos hc] at h
    split at h
    · exact absurd h (by simp)
    · rename_i frecs hfee
      split at h
      · exact absurd h (by simp)
      · rename_i boughtAsset boughtAmount hfold
        split at h
        · exact absurd h (by simp)
        · rename_i feeAmount hfa
          split at h
          · exact absurd h (by simp)
          · rename_i spentAmount hsp
            obtain h1 := by simpa using h
            subst h1
            intro a ha
            obtain ha := by simpa using ha
            subst ha
            exact ⟨feeAmtFold_nonneg hfa, rfl⟩
  · rw [buyBranch, if_neg hc] at h
    obtain h1 := by simpa using h
    subst h1
    simp

theorem buyBranch_someness {iso holder exch : String} {group : List RawRecord}
    {l : List InTx}
    (h : buyBranch iso holder exch group = Except.ok l)
    (hc : group.any (fun r => r.operation == "Transaction Buy")) :
    (∀ r ∈ group, r.operation = "Transaction Fee" → (r.change).isSome = true) ∧
    (∀ r ∈ group, r.operation = "Transaction Spend" → (r.change).isSome = true) := by
  rw [buyBranch, if_pos hc] at h
  split at h
  · exact absurd h (by simp)
  · rename_i frecs hfee
    split at h
    · exact absurd h (by simp)
    · rename_i boughtAsset boughtAmount hfold
      split at h
      · exact absurd h (by simp)
      · rename_i feeAmount hfa
        split at h
        · exact absurd h (by simp)
        · rename_i spentAmount hsp
          obtain ⟨_, hfeesome⟩ := feeRecs_ok hfee
          obtain ⟨_, hspendsome⟩ := absSum_ok hsp
          refine ⟨hfeesome, ?_⟩
          intro r hr hop
          exact hspendsome r (List.mem_filter.mpr ⟨hr, by simp [hop]⟩)

theorem soldBranch_props {iso holder exch : String} {group : List RawRecord}
    {l : List OutTx}
    (h : soldBranch iso holder exch group = Except.ok l) :
    ∀ o ∈ l, 0 ≤ o.cryptoOutNoFee ∧ o.cryptoFee = 0 ∧
      o.cryptoOutWithFee = o.cryptoOutNoFee := by
  by_cases hc : group.any (fun r => r.operation == "Transaction Sold")
  · rw [soldBranch, if_pos hc] at h
    split at h
    · exact absurd h (by simp)
    · rename_i frecs hfee
      split at h
      · exact absurd h (by simp)
      · rename_i soldAsset soldAmount hfold
        split at h
        · exact absurd h (by simp)
        · rename_i revenueAmount revenueAsset hrev
          split at h
          · exact absurd h (by simp)
          · rename_i feeAmount hfa
            obtain h1 := by simpa using h
            subst h1
            intro o ho
            obtain ho := by simpa using ho
            subst ho
            exact ⟨soldFold_nonneg hfold le_rfl, rfl, rfl⟩
  · rw [soldBranch, if_neg hc] at h
    obtain h1 := by simpa using h
    subst h1
    simp

theorem soldBranch_someness {iso holder exch : String} {group : List RawRecord}
    {l : List OutTx}
    (h : soldBranch iso holder exch group = Except.ok l)
    (hc : group.any (fun r => r.operation == "Transaction Sold")) :
    (∀ r ∈ group, r.operation = "Transaction Fee" → (r.change).isSome = true) ∧
    (∀ r ∈ group, r.operation = "Transaction Revenue" → (r.change).isSome = true) := by
  rw [soldBranch, if_pos hc] at h
  split at h
  · exact absurd h (by simp)
  · rename_i frecs hfee
    split at h
    · exact absurd h (by simp)
    · rename_i soldAsset soldAmount hfold
      split at h
      · exact absurd h (by simp)
      · rename_i revenueAmount revenueAsset hrev
        split at h
        · exact absurd h (by simp)
        · rename_i feeAmount hfa
          obtain ⟨_, hfeesome⟩ := feeRecs_ok hfee
          obtain ⟨_, _, hrevsome⟩ := revenueFold_ok hrev
          refine ⟨hfeesome, ?_⟩
          intro r hr hop
          exact hrevsome r (List.mem_filter.mpr ⟨hr, by simp [hop]⟩)

theorem rebrandRow_ok {holder exch fa ta : String} :
    ∀ {ss : List RawRecord} {l : List IntraTx},
    rebrandRow holder exch fa ta ss = Except.ok l →
    (∀ t ∈ l, t.asset = fa ∧ t.fromExchange = exch ∧ t.fromHolder = holder ∧
      t.toExchange = exch ∧ t.toHolder = holder ∧ t.cryptoSent = t.cryptoReceived) ∧
    l.length = (ss.filter (fun s => s.coin == fa)).length ∧
    (∀ s ∈ ss, s.coin = fa → (s.change).isSome = true) := by
  intro ss
  induction ss with
  | nil =>
    intro l h
    obtain h1 := by simpa [rebrandRow] using h
    subst h1
    simp
  | cons s ss ih =>
    intro l h
    simp only [rebrandRow] at h
    by_cases hcoin : s.coin == fa
    · rw [if_pos hcoin] at h
      split at h
      · exact absurd h (by simp)
      · rename_i amount hq
        split at h
        · exact absurd h (by simp)
        · rename_i iso hiso
          split at h
          · exact absurd h (by simp)
          · rename_i rest hrest
            obtain h1 := by simpa using h
            subst h1
            obtain ⟨hprops, hlen, hsome⟩ := ih hrest
            refine ⟨?_, ?_, ?_⟩
            · intro t ht
              rcases List.mem_cons.mp ht with ht | ht
              · subst ht; exact ⟨rfl, rfl, rfl, rfl, rfl, rfl⟩
              · exact hprops t ht
            · rw [List.filter_cons, if_pos (by simpa using hcoin)]
              simp [hlen]
            · intro x hx hxc
              rcases List.mem_cons.mp hx with hx | hx
              · subst hx; exact floatQ_ok_isSome hq
              · exact hsome x hx hxc
    · rw [if_neg hcoin] at h
      obtain ⟨hprops, hlen, hsome⟩ := ih h
      refine ⟨hprops, ?_, ?_⟩
      · rw [List.filter_cons, if_neg (by simpa using hcoin)]
        exact hlen
      · intro x hx hxc
        rcases List.mem_cons.mp hx with hx | hx
        · subst hx; exact absurd (by simp [hxc]) hcoin
        · exact hsome x hx hxc

theorem processRebrandingPairs_ok {swaps : List RawRecord} {holder exch : String} :
    ∀ {dists : List RawRecord} {l : List IntraTx},
    processRebrandingPairs swaps dists holder exch = Except.ok l →
    (∀ t ∈ l, t.cryptoSent = t.cryptoReceived) ∧
    (∀ d ∈ dists, ∀ a, fromAssetOf d.remark = some a →
      ∀ s ∈ swaps, s.coin = a → (s.change).isSome = true) := by
  intro dists
  induction dists with
  | nil =>
    intro l h
    obtain h1 := by simpa [processRebrandingPairs] using h
    subst h1
    simp
  | cons d ds ih =>
    intro l h
    simp only [processRebrandingPairs] at h
    by_cases hsep : hasSep d.remark
    · rw [if_pos hsep] at h
      split at h
      · rename_i fromAsset toAsset hsplit
        split at h
        · exact absurd h (by simp)
        · rename_i txs htxs
          split at h
          · exact absurd h (by simp)
          · rename_i rest hrest
            obtain h1 := by simpa using h
            subst h1
            obtain ⟨hprops, hlen, hsome⟩ := rebrandRow_ok htxs
            obtain ⟨hprops', hsome'⟩ := ih hrest
            refine ⟨?_, ?_⟩
            · intro t ht
              rcases List.mem_append.mp ht with ht | ht
              · exact (hprops t ht).2.2.2.2.2
              · exact hprops' t ht
            · intro x hx a ha s hs hsc
              rcases List.mem_cons.mp hx with hx | hx
              · subst hx
                have : a = fromAsset := by
                  simp only [fromAssetOf, hsplit] at ha
                  exact (Option.some.injEq _ _ ▸ ha).symm ▸ rfl
                subst this
                exact hsome s hs hsc
              · exact hsome' x hx a ha s hs hsc
      · rename_i hnot
        exact absurd h (by simp)
    · rw [if_neg hsep] at h
      obtain ⟨hprops, hsome⟩ := ih h
      refine ⟨hprops, ?_⟩
      intro x hx a ha s hs hsc
      rcases List.mem_cons.mp hx with hx | hx
      · subst hx
        simp only [fromAssetOf] at ha
        have hlen2 : 2 ≤ (splitOnTo x.remark).length := by
          rcases hsplit : splitOnTo x.remark with _ | ⟨p, _ | ⟨q, t⟩⟩ <;>
            rw [hsplit] at ha <;> simp_all
        exact absurd (by simpa [hasSep] using hlen2) hsep
      · exact hsome x hx a ha s hs hsc

theorem accumGroups_ok_groups {holder exch : String} :
    ∀ {gs : List (List RawRecord)} {acc res : List InTx × List OutTx × List IntraTx},
    accumGroups holder exch gs acc = Except.ok res →
    ∀ g ∈ gs, ∃ v, processGroupE g holder exch = Except.ok v := by
  intro gs
  induction gs with
  | nil => intro acc res _ g hg; exact absurd hg (by simp)
  | cons g0 gs ih =>
    intro acc res h g hg
    simp only [accumGroups] at h
    split at h
    · exact absurd h (by simp)
    · rename_i ins outs intras hg0
      rcases List.mem_cons.mp hg with hg | hg
      · subst hg; exact ⟨(ins, outs, intras), hg0⟩
      · exact ih h g hg

theorem accumGroups_mem {holder exch : String} :
    ∀ {gs : List (List RawRecord)} {acc res : List InTx × List OutTx × List IntraTx},
    accumGroups holder exch gs acc = Except.ok res →
    (∀ a ∈ res.1, a ∈ acc.1 ∨
      ∃ g ∈ gs, ∃ v, processGroupE g holder exch = Except.ok v ∧ a ∈ v.1) ∧
    (∀ o ∈ res.2.1, o ∈ acc.2.1 ∨
      ∃ g ∈ gs, ∃ v, processGroupE g holder exch = Except.ok v ∧ o ∈ v.2.1) ∧
    (∀ t ∈ res.2.2, t ∈ acc.2.2 ∨
      ∃ g ∈ gs, ∃ v, processGroupE g holder exch = Except.ok v ∧ t ∈ v.2.2) := by
  intro gs
  induction gs with
  | nil =>
    intro acc res h
    obtain h1 := by simpa [accumGroups] using h
    subst h1
    exact ⟨fun a ha => Or.inl ha, fun o ho => Or.inl ho, fun t ht => Or.inl ht⟩
  | cons g0 gs ih =>
    intro acc res h
    simp only [accumGroups] at h
    split at h
    · exact absurd h (by simp)
    · rename_i ins outs intras hg0
      obtain ⟨hin, hout, hintra⟩ := ih h
      refine ⟨?_, ?_, ?_⟩
      · intro a ha
        rcases hin a ha with hmem | ⟨g, hg, v, hv, hav⟩
        · rcases List.mem_append.mp hmem with hmem | hmem
          · exact Or.inl hmem
          · exact Or.inr ⟨g0, by simp, (ins, outs, intras), hg0, hmem⟩
        · exact Or.inr ⟨g, by simp [hg], v, hv, hav⟩
      · intro o ho
        rcases hout o ho with hmem | ⟨g, hg, v, hv, hov⟩
        · rcases List.mem_append.mp hmem with hmem | hmem
          · exact Or.inl hmem
          · exact Or.inr ⟨g0, by simp, (ins, outs, intras), hg0, hmem⟩
        · exact Or.inr ⟨g, by simp [hg], v, hv, hov⟩
      · intro t ht
        rcases hintra t ht with hmem | ⟨g, hg, v, hv, htv⟩
        · rcases List.mem_append.mp hmem with hmem | hmem
          · exact Or.inl hmem
          · exact Or.inr ⟨g0, by simp, (ins, outs, intras), hg0, hmem⟩
        · exact Or.inr ⟨g, by simp [hg], v, hv, htv⟩

theorem convertAll_ok {records : List RawRecord} {holder exch : String}
    {res : List InTx × List OutTx × List IntraTx}
    (h : convertAll records holder exch = Except.ok res) :
    ∃ rebrandTxs,
      processRebrandingPairs (records.filter (fun r => r.operation == swapOp))
        (records.filter (fun r => r.operation == "Distribution" && hasSep r.remark))
        holder exch = Except.ok rebrandTxs ∧
      accumGroups holder exch (groupsOf (groupableRecords records))
        ([], [], rebrandTxs) = Except.ok res := by
  simp only [convertAll] at h
  split at h
  · exact absurd h (by simp)
  · rename_i rebrandTxs hreb
    exact ⟨rebrandTxs, hreb, h⟩

theorem mem_groupKeys {records : List RawRecord} {r : RawRecord}
    (hr : r ∈ records) : r.utcTime ∈ groupKeys records := by
  have key : ∀ (rs : List RawRecord) (ks : List String),
      r ∈ rs → r.utcTime ∈ rs.foldl (fun ks x => if x.utcTime ∈ ks then ks else ks ++ [x.utcTime]) ks := by
    intro rs
    induction rs with
    | nil => intro ks h; exact absurd h (by simp)
    | cons x xs ih =>
      intro ks h
      rcases List.mem_cons.mp h with h | h
      · subst h
        have base : r.utcTime ∈ (if r.utcTime ∈ ks then ks else ks ++ [r.utcTime]) := by
          by_cases hk : r.utcTime ∈ ks
          · rw [if_pos hk]; exact hk
          · rw [if_neg hk]; simp
        have mono : ∀ (ys : List RawRecord) (ks' : List String), r.utcTime ∈ ks' →
            r.utcTime ∈ ys.foldl (fun ks x => if x.utcTime ∈ ks then ks else ks ++ [x.utcTime]) ks' := by
          intro ys
          induction ys with
          | nil => intro ks' hk; exact hk
          | cons y ys ihy =>
            intro ks' hk
            apply ihy
            show r.utcTime ∈ if y.utcTime ∈ ks' then ks' else ks' ++ [y.utcTime]
            by_cases hy : y.utcTime ∈ ks'
            · rw [if_pos hy]; exact hk
            · rw [if_neg hy]; exact List.mem_append_left _ hk
        exact mono xs _ base
      · exact ih _ h
  exact key records [] hr

theorem mem_own_group {records : List RawRecord} {r : RawRecord}
    (hr : r ∈ records) :
    records.filter (fun x => x.utcTime == r.utcTime) ∈ groupsOf records ∧
    r ∈ records.filter (fun x => x.utcTime == r.utcTime) := by
  constructor
  · exact List.mem_map.mpr ⟨r.utcTime, mem_groupKeys hr, rfl⟩
  · exact List.mem_filter.mpr ⟨hr, by simp⟩

/-! ### Rebranding totality helper -/

theorem rebrandRow_total {holder exch a ta : String} :
    ∀ {swaps : List RawRecord},
    (∀ s ∈ swaps, s.coin = a →
      (∃ q, s.change = some q) ∧ (∃ t, normTime s.utcTime = Except.ok t)) →
    ∃ l, rebrandRow holder exch a ta swaps = Except.ok l := by
  intro swaps
  induction swaps with
  | nil => intro _; exact ⟨[], rfl⟩
  | cons s ss ih =>
    intro hp
    obtain ⟨l, hl⟩ := ih (fun x hx => hp x (List.mem_cons_of_mem _ hx))
    by_cases hcoin : s.coin == a
    · obtain ⟨⟨q, hq⟩, ⟨t, ht⟩⟩ := hp s (List.mem_cons_self _ _) (by simpa using hcoin)
      refine ⟨{ timestamp := t, asset := a, fromExchange := exch, fromHolder := holder,
                toExchange := exch, toHolder := holder,
                cryptoSent := |q|, cryptoReceived := |q| } :: l, ?_⟩
      simp only [rebrandRow, if_pos hcoin, hq, floatQ, ht, hl]
    · exact ⟨l, by simp only [rebrandRow, if_neg hcoin, hl]⟩

/-! ### The claims -/

/-- Claim C10: a `Binance Convert` row whose Change parses to exactly
zero is not skipped and is not classified as an acquisition: it yields a
SELL disposal with both crypto-out fields equal to zero, because only
strictly positive amounts take the acquisition branch of
`process_transaction_group`. -/
theorem convertZeroDisposal (ts coin remark holder exch iso : String)
    (hts : normTime ts = Except.ok iso) :
    processGroupE [⟨ts, "Binance Convert", coin, some 0, remark⟩] holder exch =
      Except.ok ([],
        [{ timestamp := iso, asset := coin, exchange := exch, holder := holder,
           transactionType := "SELL", cryptoOutNoFee := 0, cryptoFee := 0,
           cryptoOutWithFee := 0, fiatOutNoFee := none, fiatFee := none,
           fiatTicker := "" }], []) := by
  simp [processGroupE, hts, convertBranch, depositBranch, withdrawBranch, buyBranch,
    soldBranch, convertTxs, floatQ]

/-- Witness for C10 at a concrete input. -/
theorem convertZeroDisposalWitness :
    processGroupE [⟨"2021-03-04 05:06:07", "Binance Convert", "XRP", some 0, "r"⟩]
        "User" "Binance" =
      Except.ok ([],
        [{ timestamp := "2021-03-04T05:06:07Z", asset := "XRP", exchange := "Binance",
           holder := "User", transactionType := "SELL", cryptoOutNoFee := 0, cryptoFee := 0,
           cryptoOutWithFee := 0, fiatOutNoFee := none, fiatFee := none,
           fiatTicker := "" }], []) :=
  convertZeroDisposal "2021-03-04 05:06:07" "XRP" "r" "User" "Binance"
    "2021-03-04T05:06:07Z" (by rfl)

/-- Counterexample for claim C8 as stated: a non-empty group containing
no recognized operation kind still raises when its timestamp string is
malformed (`datetime.strptime` raises before any operation kind is
examined), so the classifier does not always return three empty
sequences error-free. -/
theorem badTimestampGroupCex :
    processGroupE [⟨"not a timestamp", "Staking", "BTC", some 1, ""⟩] "User" "Binance" =
      Except.error () := by rfl

/-- Claim C8 (amended): for every non-empty timestamp group whose rows
contain none of the five recognized operation kinds, *provided the
group's timestamp string is well-formed*, the classifier returns three
empty sequences and no error. -/
theorem unrecognizedGroupEmpty (g0 : RawRecord) (gs : List RawRecord)
    (holder exch iso : String)
    (hts : normTime g0.utcTime = Except.ok iso)
    (hops : ∀ r ∈ g0 :: gs,
      r.operation ≠ "Binance Convert" ∧ r.operation ≠ "Deposit" ∧
      r.operation ≠ "Withdraw" ∧ r.operation ≠ "Transaction Buy" ∧
      r.operation ≠ "Transaction Sold") :
    processGroupE (g0 :: gs) holder exch = Except.ok ([], [], []) := by
  have hany : ∀ (op : String), (∀ r ∈ g0 :: gs, r.operation ≠ op) →
      ((g0 :: gs).any (fun r => r.operation == op)) = false := by
    intro op hop
    rw [List.any_eq_false]
    intro r hr
    simp [hop r hr]
  simp [processGroupE, hts, convertBranch, depositBranch, withdrawBranch, buyBranch,
    soldBranch,
    hany "Binance Convert" (fun r hr => (hops r hr).1),
    hany "Deposit" (fun r hr => (hops r hr).2.1),
    hany "Withdraw" (fun r hr => (hops r hr).2.2.1),
    hany "Transaction Buy" (fun r hr => (hops r hr).2.2.2.1),
    hany "Transaction Sold" (fun r hr => (hops r hr).2.2.2.2)]

/-- Witness for C8's amended theorem at a concrete input. -/
theorem unrecognizedGroupEmptyWitness :
    processGroupE [⟨"2021-01-01 00:00:00", "Staking", "BTC", some 1, ""⟩]
      "User" "Binance" = Except.ok ([], [], []) :=
  unrecognizedGroupEmpty ⟨"2021-01-01 00:00:00", "Staking", "BTC", some 1, ""⟩ []
    "User" "Binance" "2021-01-01T00:00:00Z" (by rfl) (by simp)

/-- Counterexample for claim C5 as stated: a distribution remark with
the separator token appearing twice makes the matcher *fail* (Python's
two-name unpacking of a three-element split raises `ValueError`) instead
of splitting at the first occurrence and proceeding. -/
theorem multiSeparatorRemarkCex :
    processRebrandingPairs []
      [⟨"2021-01-03 00:00:00", "Distribution", "NEW", some 100, "A to B to C"⟩]
      "User" "Binance" = Except.error () := by rfl

/-- Claim C5 (amended): a distribution remark containing the separator
token more than once (so that the split yields three or more parts) is
fatal: `process_rebranding_pairs` raises at the two-name unpacking.
Only a remark with exactly one separator occurrence is split into the
old and new asset names. -/
theorem multiSeparatorRemarkFatal (swaps : List RawRecord) (d : RawRecord)
    (ds : List RawRecord) (holder exch : String)
    (hlen : 3 ≤ (splitOnTo d.remark).length) :
    processRebrandingPairs swaps (d :: ds) holder exch = Except.error () := by
  have hsep : hasSep d.remark := by
    simp only [hasSep, decide_eq_true_eq]
    omega
  simp only [processRebrandingPairs, if_pos hsep]
  rcases hsplit : splitOnTo d.remark with _ | ⟨p, _ | ⟨q, _ | ⟨w, t⟩⟩⟩ <;>
    rw [hsplit] at hlen <;> simp at hlen ⊢

/-- Witness for C5's amended theorem at a concrete input. -/
theorem multiSeparatorRemarkFatalWitness :
    processRebrandingPairs []
      [⟨"2021-01-03 00:00:00", "Distribution", "NEW", some 100, "X to Y to Z"⟩]
      "User" "Binance" = Except.error () :=
  multiSeparatorRemarkFatal []
    ⟨"2021-01-03 00:00:00", "Distribution", "NEW", some 100, "X to Y to Z"⟩
    [] "User" "Binance" (by rfl)

/-- Counterexample for claim C4 as stated: a distribution row whose
derived old asset `"OLD"` matches *two* token-swap rows produces one
Transfer per matching swap row - two records, not exactly one taken from
the first match (the scan over `swap_records` has no `break`). -/
theorem rebrandAllMatchesCex :
    processRebrandingPairs
      [⟨"2021-01-01 00:00:00", swapOp, "OLD", some (-100), ""⟩,
       ⟨"2021-01-02 00:00:00", swapOp, "OLD", some (-100), ""⟩]
      [⟨"2021-01-03 00:00:00", "Distribution", "NEW", some 100, "OLD to NEW"⟩]
      "User" "Binance" =
      Except.ok
        [⟨"2021-01-01T00:00:00Z", "OLD", "Binance", "User", "Binance", "User", 100, 100⟩,
         ⟨"2021-01-02T00:00:00Z", "OLD", "Binance", "User", "Binance", "User", 100, 100⟩] := by
  rfl

/-- Claim C4 (amended): for a distribution row whose remark splits into
exactly two names, the matcher emits one Transfer record *per* matching
swap row (in source order) - when several swap rows share the derived
old-asset name, every one of them is paired, not only the first. -/
theorem rebrandOnePerMatchingSwap (swaps : List RawRecord) (d : RawRecord)
    (holder exch a b : String)
    (hsplit : splitOnTo d.remark = [a, b])
    (hparse : ∀ s ∈ swaps, s.coin = a →
      (∃ q, s.change = some q) ∧ (∃ t, normTime s.utcTime = Except.ok t)) :
    ∃ l, processRebrandingPairs swaps [d] holder exch = Except.ok l ∧
      l.length = (swaps.filter (fun s => s.coin == a)).length ∧
      ∀ tx ∈ l, tx.asset = a ∧ tx.fromExchange = exch ∧ tx.fromHolder = holder ∧
        tx.toExchange = exch ∧ tx.toHolder = holder ∧
        tx.cryptoSent = tx.cryptoReceived := by
  have hsep : hasSep d.remark := by
    simp [hasSep, hsplit]
  obtain ⟨l, hl⟩ := @rebrandRow_total holder exch a b swaps hparse
  refine ⟨l, ?_, (rebrandRow_ok hl).2.1, fun tx htx => (rebrandRow_ok hl).1 tx htx⟩
  simp only [processRebrandingPairs, if_pos hsep, hsplit, hl]
  simp

/-- Witness for C4's amended theorem at a concrete input: one
distribution row, two matching swap rows. -/
theorem rebrandOnePerMatchingSwapWitness :
    ∃ l, processRebrandingPairs
      [⟨"2021-01-01 00:00:00", swapOp, "OLD", some (-100), ""⟩,
       ⟨"2021-01-02 00:00:00", swapOp, "OLD", some (-100), ""⟩]
      [⟨"2021-01-03 00:00:00", "Distribution", "NEW", some 100, "OLD to NEW"⟩]
      "User" "Binance" = Except.ok l ∧
      l.length = (([⟨"2021-01-01 00:00:00", swapOp, "OLD", some (-100), ""⟩,
        ⟨"2021-01-02 00:00:00", swapOp, "OLD", some (-100), ""⟩] :
          List RawRecord).filter (fun s => s.coin == "OLD")).length ∧
      ∀ tx ∈ l, tx.asset = "OLD" ∧ tx.fromExchange = "Binance" ∧ tx.fromHolder = "User" ∧
        tx.toExchange = "Binance" ∧ tx.toHolder = "User" ∧
        tx.cryptoSent = tx.cryptoReceived :=
  rebrandOnePerMatchingSwap
    [⟨"2021-01-01 00:00:00", swapOp, "OLD", some (-100), ""⟩,
     ⟨"2021-01-02 00:00:00", swapOp, "OLD", some (-100), ""⟩]
    ⟨"2021-01-03 00:00:00", "Distribution", "NEW", some 100, "OLD to NEW"⟩
    "User" "Binance" "OLD" "NEW" (by rfl)
    (by
      intro s hs hc
      rcases List.mem_cons.mp hs with hs | hs
      · subst hs; exact ⟨⟨-100, rfl⟩, ⟨"2021-01-01T00:00:00Z", rfl⟩⟩
      · rcases List.mem_cons.mp hs with hs | hs
        · subst hs; exact ⟨⟨-100, rfl⟩, ⟨"2021-01-02T00:00:00Z", rfl⟩⟩
        · exact absurd hs (by simp))

/-- Claim C9: for every input record sequence on which the conversion
succeeds, every emitted Transfer record - whether produced by the
Deposit pattern or by the rebranding matcher - has `crypto_sent` equal
to `crypto_received`. -/
theorem transferSentEqReceived (records : List RawRecord) (holder exch : String)
    (res : List InTx × List OutTx × List IntraTx)
    (hok : convertAll records holder exch = Except.ok res) :
    ∀ t ∈ res.2.2, t.cryptoSent = t.cryptoReceived := by
  obtain ⟨rebrandTxs, hreb, hacc⟩ := convertAll_ok hok
  obtain ⟨_, _, hintra⟩ := accumGroups_mem hacc
  intro t ht
  rcases hintra t ht with hmem | ⟨g, hg, v, hv, htv⟩
  · exact (processRebrandingPairs_ok hreb).1 t hmem
  · obtain ⟨g0, gs, iso, p1, intras1, outs2, ins2, outs3, hgeq, hts, hcv, hdep,
      hwd, hbuy, hsold, hres⟩ := processGroupE_ok hv
    rw [hres] at htv
    exact (depositBranch_ok hdep).1 t htv

/-- Witness for C9 at a concrete input (one Deposit row). -/
theorem transferSentEqReceivedWitness :
    (⟨"2021-01-01T00:00:00Z", "BTC", "External", "User", "Binance", "User",
      (5 : ℚ), 5⟩ : IntraTx).cryptoSent =
    (⟨"2021-01-01T00:00:00Z", "BTC", "External", "User", "Binance", "User",
      (5 : ℚ), 5⟩ : IntraTx).cryptoReceived :=
  transferSentEqReceived
    [⟨"2021-01-01 00:00:00", "Deposit", "BTC", some 5, ""⟩] "User" "Binance"
    ([], [], [⟨"2021-01-01T00:00:00Z", "BTC", "External", "User", "Binance", "User",
      5, 5⟩]) (by rfl)
    ⟨"2021-01-01T00:00:00Z", "BTC", "External", "User", "Binance", "User", 5, 5⟩
    (by simp)

/-- Counterexample for claim C3 as stated: a Buy group whose matching
fee total exceeds the signed Buy total produces an Acquisition with a
*negative* `crypto_in` (`1 - 2 = -1`), so crypto quantities are not
non-negative for all sign combinations of the source rows. -/
theorem negativeCryptoInCex :
    convertAll [⟨"2021-01-01 00:00:00", "Transaction Buy", "ETH", some 1, ""⟩,
                ⟨"2021-01-01 00:00:00", "Transaction Fee", "ETH", some (-2), ""⟩]
      "User" "Binance" =
      Except.ok ([{ timestamp := "2021-01-01T00:00:00Z", asset := "ETH",
                    exchange := "Binance", holder := "User", transactionType := "BUY",
                    cryptoIn := -1, cryptoFee := 2, fiatInNoFee := some 0,
                    fiatInWithFee := some 0, fiatFee := none,
                    fiatTicker := some "USDT" }], [], []) ∧ ((-1 : ℚ) < 0) := by
  have h0 : convertAll
      [⟨"2021-01-01 00:00:00", "Transaction Buy", "ETH", some 1, ""⟩,
       ⟨"2021-01-01 00:00:00", "Transaction Fee", "ETH", some (-2), ""⟩]
      "User" "Binance" =
      Except.ok ([{ timestamp := "2021-01-01T00:00:00Z", asset := "ETH",
                    exchange := "Binance", holder := "User", transactionType := "BUY",
                    cryptoIn := (0 : ℚ) + 1 - (|(-2 : ℚ)| + 0),
                    cryptoFee := |(-2 : ℚ)| + 0, fiatInNoFee := some 0,
                    fiatInWithFee := some 0, fiatFee := none,
                    fiatTicker := some "USDT" }], [], []) := by rfl
  rw [h0]
  norm_num

/-- Claim C3 (amended): on every successful conversion, all reported
crypto quantities are non-negative *except* the `crypto_in` of a
Buy-pattern (fiat-ticker `"USDT"`) acquisition, which equals
`bought_amount - fee_amount` and may be negative; in particular every
disposal's `crypto_out_no_fee`, `crypto_fee` and `crypto_out_with_fee`
are non-negative, every acquisition's `crypto_fee` is non-negative, and
every Convert acquisition (fiat ticker absent) has a non-negative
`crypto_in`. -/
theorem cryptoQuantitiesNonneg (records : List RawRecord) (holder exch : String)
    (res : List InTx × List OutTx × List IntraTx)
    (hok : convertAll records holder exch = Except.ok res) :
    (∀ o ∈ res.2.1, 0 ≤ o.cryptoOutNoFee ∧ 0 ≤ o.cryptoFee ∧ 0 ≤ o.cryptoOutWithFee) ∧
    (∀ a ∈ res.1, 0 ≤ a.cryptoFee ∧ (a.fiatTicker = none → 0 ≤ a.cryptoIn)) := by
  obtain ⟨rebrandTxs, hreb, hacc⟩ := convertAll_ok hok
  obtain ⟨hin, hout, _⟩ := accumGroups_mem hacc
  constructor
  · intro o ho
    rcases hout o ho with hmem | ⟨g, hg, v, hv, hov⟩
    · exact absurd hmem (by simp)
    · obtain ⟨g0, gs, iso, p1, intras1, outs2, ins2, outs3, hgeq, hts, hcv, hdep,
        hwd, hbuy, hsold, hres⟩ := processGroupE_ok hv
      rw [hres] at hov
      rcases List.mem_append.mp hov with hov | hov
      · rcases List.mem_append.mp hov with hov | hov
        · obtain ⟨hfee0, hnn, hwf, _⟩ := (convertBranch_ok hcv).2.1 o hov
          exact ⟨hnn, by rw [hfee0], by rw [hwf]; exact hnn⟩
        · obtain ⟨hfee0, hnn, hwf, _⟩ := (withdrawBranch_ok hwd).1 o hov
          exact ⟨hnn, by rw [hfee0], by rw [hwf]; exact hnn⟩
      · obtain ⟨hnn, hfee0, hwf⟩ := soldBranch_props hsold o hov
        exact ⟨hnn, by rw [hfee0], by rw [hwf]; exact hnn⟩
  · intro a ha
    rcases hin a ha with hmem | ⟨g, hg, v, hv, hav⟩
    · exact absurd hmem (by simp)
    · obtain ⟨g0, gs, iso, p1, intras1, outs2, ins2, outs3, hgeq, hts, hcv, hdep,
        hwd, hbuy, hsold, hres⟩ := processGroupE_ok hv
      rw [hres] at hav
      rcases List.mem_append.mp hav with hav | hav
      · obtain ⟨htick, hfee0, hpos⟩ := (convertBranch_ok hcv).1 a hav
        exact ⟨by rw [hfee0], fun _ => le_of_lt hpos⟩
      · obtain ⟨hfee, htick⟩ := buyBranch_props hbuy a hav
        refine ⟨hfee, fun hn => ?_⟩
        rw [htick] at hn
        exact absurd hn (by simp)

/-- Witness for C3's amended theorem at a concrete input (one Withdraw
row producing one disposal). -/
theorem cryptoQuantitiesNonnegWitness :
    0 ≤ (⟨"2021-01-01T00:00:00Z", "BTC", "Binance", "User", "SELL", (1 : ℚ), 0, 1,
      none, none, "USD"⟩ : OutTx).cryptoOutNoFee ∧
    0 ≤ (⟨"2021-01-01T00:00:00Z", "BTC", "Binance", "User", "SELL", (1 : ℚ), 0, 1,
      none, none, "USD"⟩ : OutTx).cryptoFee ∧
    0 ≤ (⟨"2021-01-01T00:00:00Z", "BTC", "Binance", "User", "SELL", (1 : ℚ), 0, 1,
      none, none, "USD"⟩ : OutTx).cryptoOutWithFee :=
  (cryptoQuantitiesNonneg
    [⟨"2021-01-01 00:00:00", "Withdraw", "BTC", some (-1), ""⟩] "User" "Binance"
    ([], [⟨"2021-01-01T00:00:00Z", "BTC", "Binance", "User", "SELL", 1, 0, 1,
      none, none, "USD"⟩], []) (by rfl)).1
    ⟨"2021-01-01T00:00:00Z", "BTC", "Binance", "User", "SELL", 1, 0, 1,
      none, none, "USD"⟩ (by simp)

/-- Counterexample for claim C1 as stated: when the first Buy row's
asset symbol is the empty string, Python's `if not bought_asset` re-fires
and the aggregation asset is re-selected from a later row - here the
emitted acquisition has asset `"ETH"` and `crypto_in = 3` (both rows
summed), not the first Buy row's asset `""` with `crypto_in = 1`. -/
theorem buyFirstAssetEmptyCex :
    (processGroupE
      [⟨"2021-01-01 00:00:00", "Transaction Buy", "", some 1, ""⟩,
       ⟨"2021-01-01 00:00:00", "Transaction Buy", "ETH", some 2, ""⟩]
      "User" "Binance" =
      Except.ok ([{ timestamp := "2021-01-01T00:00:00Z", asset := "ETH",
                    exchange := "Binance", holder := "User", transactionType := "BUY",
                    cryptoIn := 3, cryptoFee := 0, fiatInNoFee := some 0,
                    fiatInWithFee := some 0, fiatFee := none,
                    fiatTicker := some "USDT" }], [], [])) ∧
    (([⟨"2021-01-01 00:00:00", "Transaction Buy", "", some 1, ""⟩,
       ⟨"2021-01-01 00:00:00", "Transaction Buy", "ETH", some 2, ""⟩] :
        List RawRecord).filter (fun r => r.operation == "Transaction Buy")).map
      (fun r => r.coin) = ["", "ETH"] := by
  have h0 : processGroupE
      [⟨"2021-01-01 00:00:00", "Transaction Buy", "", some 1, ""⟩,
       ⟨"2021-01-01 00:00:00", "Transaction Buy", "ETH", some 2, ""⟩]
      "User" "Binance" =
      Except.ok ([{ timestamp := "2021-01-01T00:00:00Z", asset := "ETH",
                    exchange := "Binance", holder := "User", transactionType := "BUY",
                    cryptoIn := (0 : ℚ) + 1 + 2 - 0, cryptoFee := 0, fiatInNoFee := some 0,
                    fiatInWithFee := some 0, fiatFee := none,
                    fiatTicker := some "USDT" }], [], []) := by rfl
  rw [h0]
  constructor
  · norm_num
  · rfl

/-- Claim C1 (amended): for every group on which the classifier succeeds
and whose first `Transaction Buy` row has a *non-empty* asset symbol,
exactly one acquisition with fiat ticker `"USDT"` is emitted; its asset
is the first Buy row's asset, its `crypto_in` is the sum of Change over
Buy rows sharing that asset minus the sum of `abs(Change)` over negative
`Transaction Fee` rows of the same asset, and both fiat-in fields equal
the sum of `abs(Change)` over `Transaction Spend` rows.  (An empty first
asset symbol re-triggers Python's falsy `if not bought_asset` selection,
see the counterexample.) -/
theorem buyGroupAcquisition (group : List RawRecord) (holder exch : String)
    (ins : List InTx) (outs : List OutTx) (intras : List IntraTx)
    (b : RawRecord) (bs : List RawRecord)
    (hok : processGroupE group holder exch = Except.ok (ins, outs, intras))
    (hfirst : group.filter (fun r => r.operation == "Transaction Buy") = b :: bs)
    (hcoin : b.coin ≠ "") :
    ∃ a ∈ ins,
      a.asset = b.coin ∧
      a.cryptoIn =
        ((group.filter (fun r => r.operation == "Transaction Buy" &&
          r.coin == b.coin)).map changeD).sum -
        ((group.filter (fun r => r.operation == "Transaction Fee" &&
          decide (changeD r < 0) && r.coin == b.coin)).map (fun r => |changeD r|)).sum ∧
      a.fiatInNoFee = some (((group.filter
        (fun r => r.operation == "Transaction Spend")).map (fun r => |changeD r|)).sum) ∧
      a.fiatInWithFee = a.fiatInNoFee ∧
      a.fiatTicker = some "USDT" ∧
      (∀ x ∈ ins, x.fiatTicker = some "USDT" → x = a) := by
  obtain ⟨g0, gs, iso, p1, intras1, outs2, ins2, outs3, hgeq, hts, hcv, hdep, hwd,
    hbuy, hsold, hres⟩ := processGroupE_ok hok
  simp only [Prod.mk.injEq] at hres
  obtain ⟨hins, houts, hintras⟩ := hres
  have hbmem : b ∈ group.filter (fun r => r.operation == "Transaction Buy") := by
    rw [hfirst]; exact List.mem_cons_self _ _
  have hany : group.any (fun r => r.operation == "Transaction Buy") = true := by
    rw [List.any_eq_true]
    obtain ⟨hbg, hbop⟩ := List.mem_filter.mp hbmem
    exact ⟨b, hbg, hbop⟩
  simp only [buyBranch] at hbuy
  rw [if_pos hany, hfirst] at hbuy
  split at hbuy
  · exact absurd hbuy (by simp)
  · rename_i frecs hfrecs
    split at hbuy
    · exact absurd hbuy (by simp)
    · rename_i boughtAsset boughtAmount hfold
      split at hbuy
      · exact absurd hbuy (by simp)
      · rename_i feeAmount hfa
        split at hbuy
        · exact absurd hbuy (by simp)
        · rename_i spentAmount hsp
          obtain hins2 := by simpa using hbuy
          obtain ⟨hasset, hamt, _⟩ := buyFold_first hcoin hfold
          have hassetv : boughtAsset = some b.coin := hasset
          obtain ⟨hfrecs_eq, _⟩ := feeRecs_ok hfrecs
          have hfav := feeAmtFold_ok hfa
          obtain ⟨hspentv, _⟩ := absSum_ok hsp
          have e1 : (b :: bs).filter (fun r => r.coin == b.coin) =
              group.filter (fun r => r.operation == "Transaction Buy" &&
                r.coin == b.coin) := by
            rw [← hfirst, filter_filter_comm]
          have e2 : frecs.filter (fun r => some r.coin == boughtAsset) =
              group.filter (fun r => r.operation == "Transaction Fee" &&
                decide (changeD r < 0) && r.coin == b.coin) := by
            rw [hassetv]
            rw [List.filter_congr (fun r _ => some_beq_some r.coin b.coin)]
            rw [hfrecs_eq, filter_filter_comm]
          refine ⟨{ timestamp := iso, asset := boughtAsset.getD "", exchange := exch,
                    holder := holder, transactionType := "BUY",
                    cryptoIn := boughtAmount - feeAmount, cryptoFee := feeAmount,
                    fiatInNoFee := some spentAmount, fiatInWithFee := some spentAmount,
                    fiatFee := none, fiatTicker := some "USDT" },
                  ?_, ?_, ?_, ?_, ?_, ?_, ?_⟩
          · rw [hins, ← hins2]
            exact List.mem_append_right _ (by simp)
          · rw [hassetv]; rfl
          · show boughtAmount - feeAmount = _
            have hb1 : boughtAmount = ((group.filter
                (fun r => r.operation == "Transaction Buy" &&
                  r.coin == b.coin)).map changeD).sum := by
              rw [← e1]; exact hamt
            have hb2 : feeAmount = ((group.filter
                (fun r => r.operation == "Transaction Fee" &&
                  decide (changeD r < 0) && r.coin == b.coin)).map
                  (fun r => |changeD r|)).sum := by
              rw [← e2]; exact hfav
            rw [hb1, hb2]
          · rw [hspentv]
          · rfl
          · rfl
          · intro x hx htick
            rw [hins, ← hins2] at hx
            rcases List.mem_append.mp hx with hx | hx
            · obtain ⟨hnone, _, _⟩ := (convertBranch_ok hcv).1 x hx
              rw [hnone] at htick
              exact absurd htick (by simp)
            · simpa using hx

/-- Witness for C1's amended theorem on `demoBuyGroup` (Scenario 2 of the
specification: Buy 1 ETH, Spend 3000 USDT). -/
theorem buyGroupAcquisitionWitness :
    ∃ a ∈ [({ timestamp := "2021-01-01T00:00:00Z", asset := "ETH", exchange := "Binance",
              holder := "User", transactionType := "BUY",
              cryptoIn := (0 : ℚ) + 1 - 0, cryptoFee := 0,
              fiatInNoFee := some (|(-3000 : ℚ)| + 0),
              fiatInWithFee := some (|(-3000 : ℚ)| + 0), fiatFee := none,
              fiatTicker := some "USDT" } : InTx)],
      a.asset = "ETH" ∧
      a.cryptoIn =
        ((demoBuyGroup.filter (fun r => r.operation == "Transaction Buy" &&
          r.coin == "ETH")).map changeD).sum -
        ((demoBuyGroup.filter (fun r => r.operation == "Transaction Fee" &&
          decide (changeD r < 0) && r.coin == "ETH")).map (fun r => |changeD r|)).sum ∧
      a.fiatInNoFee = some (((demoBuyGroup.filter
        (fun r => r.operation == "Transaction Spend")).map (fun r => |changeD r|)).sum) ∧
      a.fiatInWithFee = a.fiatInNoFee ∧
      a.fiatTicker = some "USDT" ∧
      (∀ x ∈ [({ timestamp := "2021-01-01T00:00:00Z", asset := "ETH", exchange := "Binance",
                 holder := "User", transactionType := "BUY",
                 cryptoIn := (0 : ℚ) + 1 - 0, cryptoFee := 0,
                 fiatInNoFee := some (|(-3000 : ℚ)| + 0),
                 fiatInWithFee := some (|(-3000 : ℚ)| + 0), fiatFee := none,
                 fiatTicker := some "USDT" } : InTx)],
        x.fiatTicker = some "USDT" → x = a) :=
  buyGroupAcquisition demoBuyGroup "User" "Binance"
    [({ timestamp := "2021-01-01T00:00:00Z", asset := "ETH", exchange := "Binance",
        holder := "User", transactionType := "BUY",
        cryptoIn := (0 : ℚ) + 1 - 0, cryptoFee := 0,
        fiatInNoFee := some (|(-3000 : ℚ)| + 0),
        fiatInWithFee := some (|(-3000 : ℚ)| + 0), fiatFee := none,
        fiatTicker := some "USDT" } : InTx)] [] []
    ⟨"2021-01-01 00:00:00", "Transaction Buy", "ETH", some 1, ""⟩ []
    (by rfl) (by rfl) (by decide)

/-- Counterexample for claim C2 as stated: when the first Sold row's
asset symbol is the empty string, Python's `if not sold_asset` re-fires
and the aggregation asset is re-selected from a later row - the emitted
disposal has asset `"BTC"` and `crypto_out = 3` (both rows summed), not
the first Sold row's asset `""` with `crypto_out = 1`. -/
theorem soldFirstAssetEmptyCex :
    (processGroupE
      [⟨"2021-01-01 00:00:00", "Transaction Sold", "", some (-1), ""⟩,
       ⟨"2021-01-01 00:00:00", "Transaction Sold", "BTC", some (-2), ""⟩]
      "User" "Binance" =
      Except.ok ([], [{ timestamp := "2021-01-01T00:00:00Z", asset := "BTC",
                        exchange := "Binance", holder := "User",
                        transactionType := "SELL", cryptoOutNoFee := 3, cryptoFee := 0,
                        cryptoOutWithFee := 3, fiatOutNoFee := some 0,
                        fiatFee := some 0, fiatTicker := "USDT" }], [])) ∧
    (([⟨"2021-01-01 00:00:00", "Transaction Sold", "", some (-1), ""⟩,
       ⟨"2021-01-01 00:00:00", "Transaction Sold", "BTC", some (-2), ""⟩] :
        List RawRecord).filter (fun r => r.operation == "Transaction Sold")).map
      (fun r => r.coin) = ["", "BTC"] := by
  have h0 : processGroupE
      [⟨"2021-01-01 00:00:00", "Transaction Sold", "", some (-1), ""⟩,
       ⟨"2021-01-01 00:00:00", "Transaction Sold", "BTC", some (-2), ""⟩]
      "User" "Binance" =
      Except.ok ([], [{ timestamp := "2021-01-01T00:00:00Z", asset := "BTC",
                        exchange := "Binance", holder := "User",
                        transactionType := "SELL",
                        cryptoOutNoFee := (0 : ℚ) + |(-1 : ℚ)| + |(-2 : ℚ)|,
                        cryptoFee := 0,
                        cryptoOutWithFee := (0 : ℚ) + |(-1 : ℚ)| + |(-2 : ℚ)|,
                        fiatOutNoFee := some ((0 : ℚ) - 0),
                        fiatFee := some 0, fiatTicker := "USDT" }], []) := by rfl
  rw [h0]
  constructor
  · norm_num
  · rfl

/-- Claim C2 (amended): for every group on which the classifier succeeds
and whose first `Transaction Sold` row has a *non-empty* asset symbol,
exactly one disposal carrying a fiat-out value is emitted; its asset is
the first Sold row's asset, its crypto-out fields are the sum of
`abs(Change)` over Sold rows sharing that asset, its `fiat_out_no_fee`
is the sum of Change over Revenue rows minus the matching negative-fee
total, and its fiat ticker is the last-seen Revenue row's asset
(defaulting to `"USDT"` with no Revenue rows).  (An empty first asset
symbol re-triggers Python's falsy `if not sold_asset` selection, see the
counterexample.) -/
theorem soldGroupDisposal (group : List RawRecord) (holder exch : String)
    (ins : List InTx) (outs : List OutTx) (intras : List IntraTx)
    (s0 : RawRecord) (ss : List RawRecord)
    (hok : processGroupE group holder exch = Except.ok (ins, outs, intras))
    (hfirst : group.filter (fun r => r.operation == "Transaction Sold") = s0 :: ss)
    (hcoin : s0.coin ≠ "") :
    ∃ d ∈ outs,
      d.asset = s0.coin ∧
      d.cryptoOutNoFee = ((group.filter (fun r => r.operation == "Transaction Sold" &&
        r.coin == s0.coin)).map (fun r => |changeD r|)).sum ∧
      d.cryptoOutWithFee = d.cryptoOutNoFee ∧
      d.fiatOutNoFee = some (
        ((group.filter (fun r => r.operation == "Transaction Revenue")).map changeD).sum -
        ((group.filter (fun r => r.operation == "Transaction Fee" &&
          decide (changeD r < 0) && r.coin == lastRevenueAsset group)).map
          (fun r => |changeD r|)).sum) ∧
      d.fiatTicker = lastRevenueAsset group ∧
      (∀ x ∈ outs, x.fiatOutNoFee ≠ none → x = d) := by
  obtain ⟨g0, gs, iso, p1, intras1, outs2, ins2, outs3, hgeq, hts, hcv, hdep, hwd,
    hbuy, hsold, hres⟩ := processGroupE_ok hok
  simp only [Prod.mk.injEq] at hres
  obtain ⟨hins, houts, hintras⟩ := hres
  have hsmem : s0 ∈ group.filter (fun r => r.operation == "Transaction Sold") := by
    rw [hfirst]; exact List.mem_cons_self _ _
  have hany : group.any (fun r => r.operation == "Transaction Sold") = true := by
    rw [List.any_eq_true]
    obtain ⟨hsg, hsop⟩ := List.mem_filter.mp hsmem
    exact ⟨s0, hsg, hsop⟩
  simp only [soldBranch] at hsold
  rw [if_pos hany, hfirst] at hsold
  split at hsold
  · exact absurd hsold (by simp)
  · rename_i frecs hfrecs
    split at hsold
    · exact absurd hsold (by simp)
    · rename_i soldAsset soldAmount hfold
      split at hsold
      · exact absurd hsold (by simp)
      · rename_i revenueAmount revenueAsset hrev
        split at hsold
        · exact absurd hsold (by simp)
        · rename_i feeAmount hfa
          obtain houts3 := by simpa using hsold
          obtain ⟨hasset, hamt, _⟩ := soldFold_first hcoin hfold
          have hassetv : soldAsset = some s0.coin := hasset
          obtain ⟨hrevamt, hrevasset, _⟩ := revenueFold_ok hrev
          have hrevassetv : revenueAsset = lastRevenueAsset group := hrevasset
          obtain ⟨hfrecs_eq, _⟩ := feeRecs_ok hfrecs
          have hfav := feeAmtFold_ok hfa
          have e1 : (s0 :: ss).filter (fun r => r.coin == s0.coin) =
              group.filter (fun r => r.operation == "Transaction Sold" &&
                r.coin == s0.coin) := by
            rw [← hfirst, filter_filter_comm]
          have e2 : frecs.filter (fun r => some r.coin == some revenueAsset) =
              group.filter (fun r => r.operation == "Transaction Fee" &&
                decide (changeD r < 0) && r.coin == lastRevenueAsset group) := by
            rw [List.filter_congr (fun r _ => some_beq_some r.coin revenueAsset)]
            rw [hfrecs_eq, filter_filter_comm]
            exact List.filter_congr (fun r _ => by rw [hrevassetv])
          refine ⟨{ timestamp := iso, asset := soldAsset.getD "", exchange := exch,
                    holder := holder, transactionType := "SELL",
                    cryptoOutNoFee := soldAmount, cryptoFee := 0,
                    cryptoOutWithFee := soldAmount,
                    fiatOutNoFee := some (revenueAmount - feeAmount),
                    fiatFee := some feeAmount, fiatTicker := revenueAsset },
                  ?_, ?_, ?_, ?_, ?_, ?_, ?_⟩
          · rw [houts, ← houts3]
            exact List.mem_append_right _ (by simp)
          · rw [hassetv]; rfl
          · show soldAmount = _
            rw [← e1]; exact hamt
          · rfl
          · show some (revenueAmount - feeAmount) = _
            have hr1 : revenueAmount = ((group.filter
                (fun r => r.operation == "Transaction Revenue")).map changeD).sum := by
              have h' : revenueAmount = 0 + ((group.filter
                  (fun r => r.operation == "Transaction Revenue")).map changeD).sum :=
                hrevamt
              rw [h']; ring
            have hr2 : feeAmount = ((group.filter
                (fun r => r.operation == "Transaction Fee" &&
                  decide (changeD r < 0) && r.coin == lastRevenueAsset group)).map
                  (fun r => |changeD r|)).sum := by
              rw [← e2]; exact hfav
            rw [hr1, hr2]
          · exact hrevassetv
          · intro x hx hne
            rw [houts, ← houts3] at hx
            rcases List.mem_append.mp hx with hx | hx
            · rcases List.mem_append.mp hx with hx | hx
              · obtain ⟨_, _, _, hnone⟩ := (convertBranch_ok hcv).2.1 x hx
                exact absurd hnone hne
              · obtain ⟨_, _, _, hnone⟩ := (withdrawBranch_ok hwd).1 x hx
                exact absurd hnone hne
            · simpa using hx

/-- Witness for C2's amended theorem on `demoSoldGroup` (Sold 1 ETH for
3000 USDT with a 3 USDT fee). -/
theorem soldGroupDisposalWitness :
    ∃ d ∈ [({ timestamp := "2021-01-01T00:00:00Z", asset := "ETH", exchange := "Binance",
              holder := "User", transactionType := "SELL",
              cryptoOutNoFee := (0 : ℚ) + |(-1 : ℚ)|, cryptoFee := 0,
              cryptoOutWithFee := (0 : ℚ) + |(-1 : ℚ)|,
              fiatOutNoFee := some ((0 : ℚ) + 3000 - (|(-3 : ℚ)| + 0)),
              fiatFee := some (|(-3 : ℚ)| + 0), fiatTicker := "USDT" } : OutTx)],
      d.asset = "ETH" ∧
      d.cryptoOutNoFee = ((demoSoldGroup.filter
        (fun r => r.operation == "Transaction Sold" &&
          r.coin == "ETH")).map (fun r => |changeD r|)).sum ∧
      d.cryptoOutWithFee = d.cryptoOutNoFee ∧
      d.fiatOutNoFee = some (
        ((demoSoldGroup.filter
          (fun r => r.operation == "Transaction Revenue")).map changeD).sum -
        ((demoSoldGroup.filter (fun r => r.operation == "Transaction Fee" &&
          decide (changeD r < 0) &&
          r.coin == lastRevenueAsset demoSoldGroup)).map
          (fun r => |changeD r|)).sum) ∧
      d.fiatTicker = lastRevenueAsset demoSoldGroup ∧
      (∀ x ∈ [({ timestamp := "2021-01-01T00:00:00Z", asset := "ETH",
                 exchange := "Binance", holder := "User", transactionType := "SELL",
                 cryptoOutNoFee := (0 : ℚ) + |(-1 : ℚ)|, cryptoFee := 0,
                 cryptoOutWithFee := (0 : ℚ) + |(-1 : ℚ)|,
                 fiatOutNoFee := some ((0 : ℚ) + 3000 - (|(-3 : ℚ)| + 0)),
                 fiatFee := some (|(-3 : ℚ)| + 0), fiatTicker := "USDT" } : OutTx)],
        x.fiatOutNoFee ≠ none → x = d) :=
  soldGroupDisposal demoSoldGroup "User" "Binance" []
    [({ timestamp := "2021-01-01T00:00:00Z", asset := "ETH", exchange := "Binance",
        holder := "User", transactionType := "SELL",
        cryptoOutNoFee := (0 : ℚ) + |(-1 : ℚ)|, cryptoFee := 0,
        cryptoOutWithFee := (0 : ℚ) + |(-1 : ℚ)|,
        fiatOutNoFee := some ((0 : ℚ) + 3000 - (|(-3 : ℚ)| + 0)),
        fiatFee := some (|(-3 : ℚ)| + 0), fiatTicker := "USDT" } : OutTx)] []
    ⟨"2021-01-01 00:00:00", "Transaction Sold", "ETH", some (-1), ""⟩ []
    (by rfl) (by rfl) (by decide)

theorem rebrandSkipUnmatched {s : RawRecord} {holder exch : String} :
    ∀ {dists swaps : List RawRecord},
    (∀ d ∈ dists, ∀ a, fromAssetOf d.remark = some a → a ≠ s.coin) →
    processRebrandingPairs (s :: swaps) dists holder exch =
      processRebrandingPairs swaps dists holder exch := by
  intro dists
  induction dists with
  | nil => intro swaps _; rfl
  | cons d ds ih =>
    intro swaps hnm
    have hnm' : ∀ x ∈ ds, ∀ a, fromAssetOf x.remark = some a → a ≠ s.coin :=
      fun x hx => hnm x (List.mem_cons_of_mem _ hx)
    by_cases hsep : hasSep d.remark
    · simp only [processRebrandingPairs, if_pos hsep]
      rcases hsplit : splitOnTo d.remark with _ | ⟨a, _ | ⟨b, _ | ⟨c, t⟩⟩⟩
      · rfl
      · rfl
      · have hne : a ≠ s.coin :=
          hnm d (List.mem_cons_self _ _) a (by simp [fromAssetOf, hsplit])
        have hrow : rebrandRow holder exch a b (s :: swaps) =
            rebrandRow holder exch a b swaps := by
          have hcoin : (s.coin == a) = false := by
            rw [beq_eq_false_iff_ne]
            exact fun h => hne h.symm
          simp only [rebrandRow, hcoin]
          simp
        simp only [hrow, ih hnm']
      · rfl
    · simp only [processRebrandingPairs, if_neg hsep]
      exact ih hnm'

/-- Claim C6: (1) every Token-Swap row and every Distribution row whose
remark contains the separator is removed from the record set before
timestamp grouping, whether or not it found a rebranding partner; and
(2) a Token-Swap row matching no distribution row's derived old asset
contributes nothing to any of the three output sequences - prepending it
to the input leaves the whole conversion's result unchanged. -/
theorem rebrandRowsRemoved (records : List RawRecord) (holder exch : String) :
    (∀ r ∈ records,
      (r.operation = swapOp ∨ (r.operation = "Distribution" ∧ hasSep r.remark = true)) →
      r ∉ groupableRecords records) ∧
    (∀ s : RawRecord, s.operation = swapOp →
      (∀ d ∈ records, d.operation = "Distribution" →
        ∀ a, fromAssetOf d.remark = some a → a ≠ s.coin) →
      convertAll (s :: records) holder exch = convertAll records holder exch) := by
  constructor
  · intro r hr helig hmem
    have helig' : eligibleRebrand r = true := by
      rcases helig with h | ⟨h1, h2⟩
      · simp [eligibleRebrand, h]
      · simp [eligibleRebrand, h1, h2]
    have hcond : (records.filter (fun x => x.operation == swapOp)) ≠ [] ∨
        (records.filter (fun x => x.operation == "Distribution" &&
          hasSep x.remark)) ≠ [] := by
      rcases helig with h | ⟨h1, h2⟩
      · left
        intro hnil
        have hmem2 : r ∈ records.filter (fun x => x.operation == swapOp) :=
          List.mem_filter.mpr ⟨hr, by simp [h]⟩
        rw [hnil] at hmem2
        exact absurd hmem2 (by simp)
      · right
        intro hnil
        have hmem2 : r ∈ records.filter (fun x => x.operation == "Distribution" &&
            hasSep x.remark) := List.mem_filter.mpr ⟨hr, by simp [h1, h2]⟩
        rw [hnil] at hmem2
        exact absurd hmem2 (by simp)
    simp only [groupableRecords] at hmem
    rw [if_pos hcond] at hmem
    obtain ⟨_, hkeep⟩ := List.mem_filter.mp hmem
    rw [helig'] at hkeep
    exact absurd hkeep (by simp)
  · intro s hs hnm
    have hsb : (s.operation == swapOp) = true := by simp [hs]
    have hsd : (s.operation == "Distribution") = false := by
      rw [hs]; rfl
    have hswaps : (s :: records).filter (fun r => r.operation == swapOp) =
        s :: records.filter (fun r => r.operation == swapOp) := by
      rw [List.filter_cons, if_pos hsb]
    have hdists : (s :: records).filter (fun r => r.operation == "Distribution" &&
        hasSep r.remark) =
        records.filter (fun r => r.operation == "Distribution" && hasSep r.remark) := by
      rw [List.filter_cons]
      simp [hsd]
    have hreb : processRebrandingPairs
        (s :: records.filter (fun r => r.operation == swapOp))
        (records.filter (fun r => r.operation == "Distribution" && hasSep r.remark))
        holder exch =
        processRebrandingPairs (records.filter (fun r => r.operation == swapOp))
        (records.filter (fun r => r.operation == "Distribution" && hasSep r.remark))
        holder exch := by
      apply rebrandSkipUnmatched
      intro d hd a ha
      obtain ⟨hdmem, hdpred⟩ := List.mem_filter.mp hd
      have hdop : d.operation = "Distribution" := by
        have h' := hdpred
        simp only [Bool.and_eq_true, beq_iff_eq] at h'
        exact h'.1
      exact hnm d hdmem hdop a ha
    have hselig : eligibleRebrand s = true := by
      simp [eligibleRebrand, hs]
    have hgroup : groupableRecords (s :: records) = groupableRecords records := by
      have hcondL : ((s :: records).filter (fun r => r.operation == swapOp)) ≠ [] ∨
          ((s :: records).filter (fun r => r.operation == "Distribution" &&
            hasSep r.remark)) ≠ [] := by
        left
        rw [hswaps]
        simp
      simp only [groupableRecords]
      rw [if_pos hcondL]
      have hdrop : (s :: records).filter (fun r => !(eligibleRebrand r)) =
          records.filter (fun r => !(eligibleRebrand r)) := by
        rw [List.filter_cons]
        simp [hselig]
      rw [hdrop]
      by_cases hcond : (records.filter (fun x => x.operation == swapOp)) ≠ [] ∨
          (records.filter (fun x => x.operation == "Distribution" &&
            hasSep x.remark)) ≠ []
      · rw [if_pos hcond]
      · rw [if_neg hcond]
        push_neg at hcond
        obtain ⟨hnil1, hnil2⟩ := hcond
        rw [List.filter_eq_nil_iff] at hnil1 hnil2
        rw [List.filter_eq_self]
        intro r hr
        have h1 := hnil1 r hr
        have h2 := hnil2 r hr
        simp only [eligibleRebrand]
        simp only [Bool.not_eq_true'] at h1 h2 ⊢
        simp only [Bool.or_eq_false_iff]
        constructor
        · simpa using h1
        · simpa using h2
    simp only [convertAll]
    rw [hswaps, hdists, hreb, hgroup]

/-- Witness for C6 at a concrete input: an unmatched swap row prepended
to a one-deposit record set changes nothing, and eligible rows are
absent from the groupable set. -/
theorem rebrandRowsRemovedWitness :
    convertAll
      (⟨"2021-01-05 00:00:00", swapOp, "OLD", some (-7), ""⟩ ::
        [⟨"2021-01-01 00:00:00", "Deposit", "BTC", some 5, ""⟩])
      "User" "Binance" =
    convertAll [⟨"2021-01-01 00:00:00", "Deposit", "BTC", some 5, ""⟩]
      "User" "Binance" :=
  (rebrandRowsRemoved [⟨"2021-01-01 00:00:00", "Deposit", "BTC", some 5, ""⟩]
    "User" "Binance").2
    ⟨"2021-01-05 00:00:00", swapOp, "OLD", some (-7), ""⟩ (by rfl)
    (by
      intro d hd hop
      rcases List.mem_cons.mp hd with hd | hd
      · subst hd; exact absurd hop (by decide)
      · exact absurd hd (by simp))

/-- Counterexample for claim C7 as stated: a `Transaction Buy` row whose
asset differs from the aggregation asset is never parsed - here the
second Buy row's Change is non-numeric (`none`), yet the conversion
succeeds and produces an acquisition, instead of failing fatally. -/
theorem unparsedBuyRowCex :
    convertAll [⟨"2021-01-01 00:00:00", "Transaction Buy", "ETH", some 1, ""⟩,
                ⟨"2021-01-01 00:00:00", "Transaction Buy", "BTC", none, ""⟩]
      "User" "Binance" =
      Except.ok ([{ timestamp := "2021-01-01T00:00:00Z", asset := "ETH",
                    exchange := "Binance", holder := "User", transactionType := "BUY",
                    cryptoIn := 1, cryptoFee := 0, fiatInNoFee := some 0,
                    fiatInWithFee := some 0, fiatFee := none,
                    fiatTicker := some "USDT" }], [], []) := by
  have h0 : convertAll [⟨"2021-01-01 00:00:00", "Transaction Buy", "ETH", some 1, ""⟩,
                ⟨"2021-01-01 00:00:00", "Transaction Buy", "BTC", none, ""⟩]
      "User" "Binance" =
      Except.ok ([{ timestamp := "2021-01-01T00:00:00Z", asset := "ETH",
                    exchange := "Binance", holder := "User", transactionType := "BUY",
                    cryptoIn := (0 : ℚ) + 1 - 0, cryptoFee := 0, fiatInNoFee := some 0,
                    fiatInWithFee := some 0, fiatFee := none,
                    fiatTicker := some "USDT" }], [], []) := by rfl
  rw [h0]
  norm_num

theorem mem_groupable_of_not_eligible {records : List RawRecord} {r : RawRecord}
    (hr : r ∈ records) (h : eligibleRebrand r = false) :
    r ∈ groupableRecords records := by
  simp only [groupableRecords]
  split
  · exact List.mem_filter.mpr ⟨hr, by simp [h]⟩
  · exact hr

theorem group_ok_of_convertAll_ok {records : List RawRecord} {holder exch : String}
    {res : List InTx × List OutTx × List IntraTx} {r : RawRecord}
    (hok : convertAll records holder exch = Except.ok res)
    (hr : r ∈ records) (helig : eligibleRebrand r = false) :
    ∃ v, processGroupE ((groupableRecords records).filter
      (fun x => x.utcTime == r.utcTime)) holder exch = Except.ok v ∧
    r ∈ (groupableRecords records).filter (fun x => x.utcTime == r.utcTime) := by
  obtain ⟨rebrandTxs, hreb, hacc⟩ := convertAll_ok hok
  have hrm := mem_groupable_of_not_eligible hr helig
  obtain ⟨hgmem, hrg⟩ := mem_own_group hrm
  obtain ⟨v, hv⟩ := accumGroups_ok_groups hacc _ hgmem
  exact ⟨v, hv, hrg⟩

theorem hasSep_of_fromAssetOf {remark a : String}
    (h : fromAssetOf remark = some a) : hasSep remark = true := by
  simp only [fromAssetOf] at h
  simp only [hasSep]
  rcases hsplit : splitOnTo remark with _ | ⟨p, _ | ⟨q, _ | ⟨w, t⟩⟩⟩ <;>
    rw [hsplit] at h <;> simp_all

/-- Claim C7 (amended): a non-numeric Change is fatal (the conversion
returns an error and, the output files being written only after all
processing, no ledger content is produced) exactly for the rows the
source actually parses: every `Binance Convert`, `Deposit` and
`Withdraw` row; every `Transaction Spend` and `Transaction Fee` row in a
group that contains a `Transaction Buy` row; every
`Transaction Revenue` and `Transaction Fee` row in a group that contains
a `Transaction Sold` row; and every token-swap row matched by some
distribution row's derived old asset.  (A Buy or Sold row whose asset
differs from the aggregation asset is never parsed - see the
counterexample.) -/
theorem malformedChangeFatal (records : List RawRecord) (holder exch : String)
    (r : RawRecord) (hr : r ∈ records) (hnone : r.change = none)
    (hclass :
      r.operation = "Binance Convert" ∨ r.operation = "Deposit" ∨
      r.operation = "Withdraw" ∨
      ((r.operation = "Transaction Spend" ∨ r.operation = "Transaction Fee") ∧
        ∃ b ∈ records, b.utcTime = r.utcTime ∧ b.operation = "Transaction Buy") ∨
      ((r.operation = "Transaction Revenue" ∨ r.operation = "Transaction Fee") ∧
        ∃ b ∈ records, b.utcTime = r.utcTime ∧ b.operation = "Transaction Sold") ∨
      (r.operation = swapOp ∧ ∃ d ∈ records, d.operation = "Distribution" ∧
        fromAssetOf d.remark = some r.coin)) :
    convertAll records holder exch = Except.error () := by
  apply exceptUnit_eq_error
  intro res hok
  rcases hclass with hop | hop | hop | ⟨hop, b, hbmem, hbt, hbop⟩ |
    ⟨hop, b, hbmem, hbt, hbop⟩ | ⟨hop, d, hdmem, hdop, hfrom⟩
  · have helig : eligibleRebrand r = false := by simp [eligibleRebrand, hop, swapOp]
    obtain ⟨v, hv, hrg⟩ := group_ok_of_convertAll_ok hok hr helig
    obtain ⟨g0, gs, iso, p1, intras1, outs2, ins2, outs3, hgeq, hts, hcv, hdep, hwd,
      hbuy, hsold, hres⟩ := processGroupE_ok hv
    have hsome := (convertBranch_ok hcv).2.2 r hrg hop
    rw [hnone] at hsome
    exact absurd hsome (by simp)
  · have helig : eligibleRebrand r = false := by simp [eligibleRebrand, hop, swapOp]
    obtain ⟨v, hv, hrg⟩ := group_ok_of_convertAll_ok hok hr helig
    obtain ⟨g0, gs, iso, p1, intras1, outs2, ins2, outs3, hgeq, hts, hcv, hdep, hwd,
      hbuy, hsold, hres⟩ := processGroupE_ok hv
    have hsome := (depositBranch_ok hdep).2 r hrg hop
    rw [hnone] at hsome
    exact absurd hsome (by simp)
  · have helig : eligibleRebrand r = false := by simp [eligibleRebrand, hop, swapOp]
    obtain ⟨v, hv, hrg⟩ := group_ok_of_convertAll_ok hok hr helig
    obtain ⟨g0, gs, iso, p1, intras1, outs2, ins2, outs3, hgeq, hts, hcv, hdep, hwd,
      hbuy, hsold, hres⟩ := processGroupE_ok hv
    have hsome := (withdrawBranch_ok hwd).2 r hrg hop
    rw [hnone] at hsome
    exact absurd hsome (by simp)
  · have helig : eligibleRebrand r = false := by
      rcases hop with hop | hop <;> simp [eligibleRebrand, hop, swapOp]
    obtain ⟨v, hv, hrg⟩ := group_ok_of_convertAll_ok hok hr helig
    obtain ⟨g0, gs, iso, p1, intras1, outs2, ins2, outs3, hgeq, hts, hcv, hdep, hwd,
      hbuy, hsold, hres⟩ := processGroupE_ok hv
    have hbelig : eligibleRebrand b = false := by simp [eligibleRebrand, hbop, swapOp]
    have hbg : b ∈ (groupableRecords records).filter
        (fun x => x.utcTime == r.utcTime) :=
      List.mem_filter.mpr ⟨mem_groupable_of_not_eligible hbmem hbelig, by simp [hbt]⟩
    have hany : ((groupableRecords records).filter
        (fun x => x.utcTime == r.utcTime)).any
        (fun x => x.operation == "Transaction Buy") = true := by
      rw [List.any_eq_true]
      exact ⟨b, hbg, by simp [hbop]⟩
    obtain ⟨hfee, hspend⟩ := buyBranch_someness hbuy hany
    rcases hop with hop | hop
    · have hsome := hspend r hrg hop
      rw [hnone] at hsome
      exact absurd hsome (by simp)
    · have hsome := hfee r hrg hop
      rw [hnone] at hsome
      exact absurd hsome (by simp)
  · have helig : eligibleRebrand r = false := by
      rcases hop with hop | hop <;> simp [eligibleRebrand, hop, swapOp]
    obtain ⟨v, hv, hrg⟩ := group_ok_of_convertAll_ok hok hr helig
    obtain ⟨g0, gs, iso, p1, intras1, outs2, ins2, outs3, hgeq, hts, hcv, hdep, hwd,
      hbuy, hsold, hres⟩ := processGroupE_ok hv
    have hbelig : eligibleRebrand b = false := by simp [eligibleRebrand, hbop, swapOp]
    have hbg : b ∈ (groupableRecords records).filter
        (fun x => x.utcTime == r.utcTime) :=
      List.mem_filter.mpr ⟨mem_groupable_of_not_eligible hbmem hbelig, by simp [hbt]⟩
    have hany : ((groupableRecords records).filter
        (fun x => x.utcTime == r.utcTime)).any
        (fun x => x.operation == "Transaction Sold") = true := by
      rw [List.any_eq_true]
      exact ⟨b, hbg, by simp [hbop]⟩
    obtain ⟨hfee, hrev⟩ := soldBranch_someness hsold hany
    rcases hop with hop | hop
    · have hsome := hrev r hrg hop
      rw [hnone] at hsome
      exact absurd hsome (by simp)
    · have hsome := hfee r hrg hop
      rw [hnone] at hsome
      exact absurd hsome (by simp)
  · have hrswaps : r ∈ records.filter (fun x => x.operation == swapOp) :=
      List.mem_filter.mpr ⟨hr, by simp [hop]⟩
    have hsep : hasSep d.remark = true := hasSep_of_fromAssetOf hfrom
    have hdmem' : d ∈ records.filter (fun x => x.operation == "Distribution" &&
        hasSep x.remark) := List.mem_filter.mpr ⟨hdmem, by simp [hdop, hsep]⟩
    obtain ⟨rebrandTxs, hreb, hacc⟩ := convertAll_ok hok
    have hsome := (processRebrandingPairs_ok hreb).2 d hdmem' r.coin hfrom r hrswaps rfl
    rw [hnone] at hsome
    exact absurd hsome (by simp)

/-- Witness for C7's amended theorem: a Deposit row with a non-numeric
Change makes the whole conversion fail with no output. -/
theorem malformedChangeFatalWitness :
    convertAll [⟨"2021-01-01 00:00:00", "Deposit", "BTC", none, ""⟩]
      "User" "Binance" = Except.error () :=
  malformedChangeFatal [⟨"2021-01-01 00:00:00", "Deposit", "BTC", none, ""⟩]
    "User" "Binance" ⟨"2021-01-01 00:00:00", "Deposit", "BTC", none, ""⟩
    (by simp) rfl (Or.inr (Or.inl rfl))
